import Mathlib

/-!
Verification development for the availability-computation core of the
`AvailableSlotsService` (`packages/lib/CalendarService.timezone.test.ts`,
second embedded document: the `slots/util` service).

Shallow embedding conventions:
  * instants are integers, milliseconds since the Unix epoch (`dayjs`
    values compare and subtract at millisecond precision);
  * a timezone is a function from an instant to its UTC offset in minutes
    (time-dependent, so DST is representable);
  * the `Intl.DateTimeFormat("fr-CA", for timeZone)` date key `YYYY-MM-DD`
    is modelled as the floor-divided day number of the offset-shifted
    instant;
  * repository reads and the external availability pipeline
    (`calculateHostsAndAvailabilities` + `getAggregatedAvailability`,
    `getSlots`) are snapshot inputs / oracle functions carried in an
    environment record, since one computation performs no writes besides
    the expired-slot cleanup;
  * fallible steps run in `Except TRPCError`; a thrown `TRPCError`
    is a code/message pair;
  * the `uuid()` generator used by `applyOccupiedSeatsToCurrentSeats` is
    made explicit as a `Nat → String` supply passed beside the
    environment, so nondeterminism across two runs is expressible.
-/

/-- Milliseconds per minute. -/
def msPerMinute : Int := 60000

/-- Milliseconds per day. -/
def msPerDay : Int := 86400000

/-- `dayjs` `a.diff(b, "day")`: millisecond difference divided by a day,
truncated toward zero (`absFloor` in dayjs). -/
def dayDiff (a b : Int) : Int := (a - b).tdiv msPerDay

/-- `dayjs().add(2, "week")` as used by the fairness fallback. -/
def twoWeeksFromNow (now : Int) : Int := now + 14 * msPerDay

/-- A thrown `TRPCError({ code, message })`. -/
structure TRPCError where
  code : String
  message : String
deriving DecidableEq, Repr

/-- `TRPCError` raised by `_getAvailableSlots` on an invalid time range. -/
def invalidTimeRangeError : TRPCError :=
  { code := "BAD_REQUEST", message := "Invalid time range given." }

/-- Modelled from the spec: the `BookingDateInPastError` thrown by
`isTimeOutOfBounds` (imported from `@calcom/lib/isOutOfBounds`, not part of
this excerpt) is converted by `_mapWithinBoundsSlotsToDate` into a
BAD_REQUEST `TRPCError` carrying the error's message. -/
def bookingDateInPastError : TRPCError :=
  { code := "BAD_REQUEST", message := "Attempting to book a meeting in the past." }

/-- One aggregated availability range (`DateRange`): a half-open UTC
interval.  Field `stop` plays the source's `end` (a Lean keyword). -/
structure DateRange where
  start : Int
  stop : Int
deriving DecidableEq, Repr

/-- A candidate slot produced by `getSlots` (only its start instant is
consumed by the stages embedded here; `userIds` is pass-through). -/
structure Slot where
  time : Int
deriving DecidableEq, Repr

/-- A `SelectedSlots` row returned by `findManyUnexpiredSlots`. -/
structure ReservedSlot where
  uid : String
  slotUtcStartDate : Int
  slotUtcEndDate : Int
  isSeat : Bool
  eventTypeId : Nat
deriving DecidableEq, Repr

/-- An entry of `CurrentSeats`: a confirmed seated booking with its
attendee count (`_count.attendees`). -/
structure SeatBooking where
  uid : String
  startTime : Int
  attendees : Nat
deriving DecidableEq, Repr

/-- One slot of the final result:
`{ time, attendees?, bookingUid? }` with the time kept as an instant
(the source stores `time.toISOString()`, an injective image of the
instant). -/
structure OutSlot where
  time : Int
  attendees : Option Nat
  bookingUid : Option String
deriving DecidableEq, Repr

/-- The returned `slots` record: date key (day number in the booker's
timezone standing for the `YYYY-MM-DD` string) to slot list, in insertion
order, mirroring a plain JS object with non-index string keys. -/
abbrev SlotsMap := List (Int × List OutSlot)

/-- Whether the JS object already has a property `k`. -/
def hasKey (m : SlotsMap) (k : Int) : Bool := m.any (fun p => p.1 = k)

/-- `r[k] = r[k] || []`: create the key with an empty list if absent. -/
def ensureKey (m : SlotsMap) (k : Int) : SlotsMap :=
  if hasKey m k then m else m ++ [(k, [])]

/-- `r[k]` after the key is known to exist (empty list when absent). -/
def getKey (m : SlotsMap) (k : Int) : List OutSlot :=
  match m.find? (fun p => p.1 = k) with
  | some p => p.2
  | none => []

/-- `r[k].push(v)`. -/
def pushKey (m : SlotsMap) (k : Int) (v : OutSlot) : SlotsMap :=
  m.map (fun p => if p.1 = k then (p.1, p.2 ++ [v]) else p)

/-- The `Intl.DateTimeFormat("fr-CA", { timeZone })` date key of an
instant: shift by the zone's offset at that instant, floor to days. -/
def formatDateKey (timeZoneOffset : Int → Int) (t : Int) : Int :=
  (t + timeZoneOffset t * msPerMinute).fdiv msPerDay

/-- `AvailableSlotsService.getStartTime`: clamp the requested start to
`dayjs.utc().add(minimumBookingNotice || 1, "minutes")` (the timezone
conversions in the source do not move the instant). -/
def getStartTime (now : Int) (minimumBookingNotice : Nat) (startTimeInput : Int) : Int :=
  let startTimeMin := now + (max minimumBookingNotice 1 : Nat) * msPerMinute
  if startTimeInput < startTimeMin then startTimeMin else startTimeInput

/-- `_getReservedSlotsAndCleanupExpired`: drop the requesting booker's own
holds (`slot.uid !== bookerClientUid`), then `await` the expired-slot
cleanup (`deleteManyExpiredSlots`); the repository call's outcome is the
`cleanupResult` argument, and a rejection propagates (the source has no
try/catch here). -/
def getReservedSlotsAndCleanupExpired (bookerClientUid : Option String)
    (unexpiredSelectedSlots : List ReservedSlot)
    (cleanupResult : Except TRPCError Unit) : Except TRPCError (List ReservedSlot) :=
  let slotsSelectedByOtherUsers :=
    unexpiredSelectedSlots.filter (fun slot => !(some slot.uid == bookerClientUid))
  match cleanupResult with
  | .error e => .error e
  | .ok _ => .ok slotsSelectedByOtherUsers

/-- JS `Map` insertion order: the distinct keys of a list in order of
first occurrence (`Map.set` keeps the first insertion's position). -/
def mapKeysInOrder (l : List Int) : List Int :=
  l.foldl (fun ks k => if ks.contains k then ks else ks ++ [k]) []

/-- `applyOccupiedSeatsToCurrentSeats`: tally the occupied (reserved-seat)
holds per UTC start instant, then push one synthetic `CurrentSeats` entry
per distinct instant, each with a freshly generated `uuid()` drawn from
the explicit supply. -/
def applyOccupiedSeatsToCurrentSeats (uuidGen : Nat → String)
    (currentSeats : List SeatBooking) (occupiedSeats : List ReservedSlot) :
    List SeatBooking :=
  let occupiedSeatsKeys := mapKeysInOrder (occupiedSeats.map (fun item => item.slotUtcStartDate))
  currentSeats ++ occupiedSeatsKeys.enum.map (fun p =>
    { uid := uuidGen p.1, startTime := p.2,
      attendees := occupiedSeats.countP (fun item => item.slotUtcStartDate = p.2) })

/-- Modelled from the spec: `checkForConflicts` (imported from
`@calcom/features/bookings/lib/conflictChecker/checkForConflicts`, not
part of this excerpt).  Per §4.6 a slot conflicts if, combined with the
current seat attendees at its exact start, one more attendee would exceed
`seatsPerTimeSlot`, or if it overlaps a non-seat hard-busy interval. -/
def checkForConflicts (time : Int) (eventLength : Nat) (busy : List (Int × Int))
    (currentSeats : Option (List SeatBooking)) (seatsPerTimeSlot : Option Nat) : Bool :=
  (match seatsPerTimeSlot, currentSeats with
   | some cap, some cs =>
     cs.any (fun booking => booking.startTime = time && cap ≤ booking.attendees)
   | _, _ => false)
  || busy.any (fun b => b.1 < time + eventLength * msPerMinute && time < b.2)

/-- The reserved-slot / seat-accounting block of `_getAvailableSlots`
(the `if (reservedSlots?.length > 0)` region): fold reserved seat holds
into `currentSeats` (incrementing matching confirmed entries, then
synthesizing entries for the remaining hold instants), collect non-seat
holds as hard-busy intervals, and drop conflicting slots.  Returns the
updated `currentSeats` and the surviving `availableTimeSlots`. -/
def seatsBlock (uuidGen : Nat → String) (eventTypeId : Nat) (eventLength : Nat)
    (seatsPerTimeSlot : Option Nat) (currentSeats : Option (List SeatBooking))
    (reservedSlots : List ReservedSlot) (availableTimeSlots : List Slot) :
    Option (List SeatBooking) × List Slot :=
  if 0 < reservedSlots.length then
    let occupiedSeats := reservedSlots.filter (fun item =>
      item.isSeat && item.eventTypeId = eventTypeId)
    let currentSeats :=
      if 0 < occupiedSeats.length then
        match currentSeats with
        | some cs =>
          let adjusted := cs.map (fun item =>
            let attendees := (occupiedSeats.filter (fun seat =>
              seat.slotUtcStartDate = item.startTime)).length
            { item with attendees := item.attendees + attendees })
          let addedToCurrentSeats := (cs.filter (fun item =>
            0 < (occupiedSeats.filter (fun seat =>
              seat.slotUtcStartDate = item.startTime)).length)).map (fun item => item.startTime)
          let occupiedSeats := occupiedSeats.filter (fun item =>
            !(addedToCurrentSeats.contains item.slotUtcStartDate))
          some (applyOccupiedSeatsToCurrentSeats uuidGen adjusted occupiedSeats)
        | none => some (applyOccupiedSeatsToCurrentSeats uuidGen [] occupiedSeats)
      else currentSeats
    let busySlotsFromReservedSlots := reservedSlots.filterMap (fun c =>
      if c.isSeat then none else some (c.slotUtcStartDate, c.slotUtcEndDate))
    (currentSeats, availableTimeSlots.filter (fun slot =>
      !(checkForConflicts slot.time eventLength busySlotsFromReservedSlots
          currentSeats seatsPerTimeSlot)))
  else (currentSeats, availableTimeSlots)

/-- `currentSeatsMap.get(timeISO)`: the map is built by `Map.set` over
`currentSeats` in order, so a lookup returns the last entry with the
given start instant. -/
def lookupSeat (currentSeats : List SeatBooking) (t : Int) : Option SeatBooking :=
  currentSeats.reverse.find? (fun booking => booking.startTime = t)

/-- The object pushed for one slot by `_mapSlotsToDate`:
`{ time, ...(existingBooking && { attendees, bookingUid }) }`. -/
def slotEntry (currentSeats : List SeatBooking) (t : Int) : OutSlot :=
  match lookupSeat currentSeats t with
  | some existingBooking =>
    { time := t, attendees := some existingBooking.attendees,
      bookingUid := some existingBooking.uid }
  | none => { time := t, attendees := none, bookingUid := none }

/-- One iteration of the `_mapSlotsToDate` reduce. -/
def mapSlotsToDateStep (timeZoneOffset : Int → Int) (onlyShowFirstAvailableSlot : Bool)
    (currentSeats : List SeatBooking) (r : SlotsMap) (slot : Slot) : SlotsMap :=
  let dateString := formatDateKey timeZoneOffset slot.time
  let r := ensureKey r dateString
  if onlyShowFirstAvailableSlot && 0 < (getKey r dateString).length then r
  else pushKey r dateString (slotEntry currentSeats slot.time)

/-- `_mapSlotsToDate`: group the surviving slots under their booker-local
date key, attaching attendee count and booking uid from the seat map, and
keeping only the first slot per date when `onlyShowFirstAvailableSlot`. -/
def mapSlotsToDate (timeZoneOffset : Int → Int) (onlyShowFirstAvailableSlot : Bool)
    (currentSeats : List SeatBooking) (availableTimeSlots : List Slot) : SlotsMap :=
  availableTimeSlots.foldl
    (mapSlotsToDateStep timeZoneOffset onlyShowFirstAvailableSlot currentSeats) []

/-- Modelled from the spec: `isTimeOutOfBounds` (imported from
`@calcom/lib/isOutOfBounds`, not part of this excerpt) throws
`BookingDateInPastError` for an instant before now, and otherwise reports
whether the instant violates the minimum booking notice. -/
def isTimeOutOfBoundsChecked (now : Int) (minimumBookingNotice : Nat) (t : Int) :
    Except TRPCError Bool :=
  if t < now then .error bookingDateInPastError
  else .ok (decide (t < now + minimumBookingNotice * msPerMinute))

/-- The `slots.filter` body of `_mapWithinBoundsSlotsToDate`, threading
the `foundAFutureLimitViolation` flag; a `BookingDateInPastError` from
the bounds check becomes a BAD_REQUEST `TRPCError` aborting everything.
The `isTimeViolatingFutureLimit` check (with its precomputed
`periodLimits`) is external and passed as a predicate oracle. -/
def filterSlotsWithinBounds (now : Int) (minimumBookingNotice : Nat)
    (isTimeViolatingFutureLimit : Int → Bool) :
    List OutSlot → Bool → Except TRPCError (List OutSlot × Bool)
  | [], found => .ok ([], found)
  | slot :: rest, found =>
    let isFutureLimitViolationForTheSlot := isTimeViolatingFutureLimit slot.time
    match isTimeOutOfBoundsChecked now minimumBookingNotice slot.time with
    | .error e => .error e
    | .ok isOutOfBounds =>
      match filterSlotsWithinBounds now minimumBookingNotice isTimeViolatingFutureLimit
          rest (found || isFutureLimitViolationForTheSlot) with
      | .error e => .error e
      | .ok (keep, foundOut) =>
        .ok ((if !isFutureLimitViolationForTheSlot && !isOutOfBounds
              then slot :: keep else keep), foundOut)

/-- The date loop of `_mapWithinBoundsSlotsToDate`: entries are visited in
insertion order; once a future-limit violation was found and the period
type starts from today, the loop breaks and later dates are dropped;
dates whose filtered slot list is empty are omitted. -/
def mapWithinBoundsGo (now : Int) (minimumBookingNotice : Nat)
    (isTimeViolatingFutureLimit : Int → Bool) (doesStartFromToday : Bool) :
    SlotsMap → Bool → Except TRPCError SlotsMap
  | [], _ => .ok []
  | (date, slots) :: rest, foundAFutureLimitViolation =>
    if foundAFutureLimitViolation && doesStartFromToday then .ok []
    else
      match filterSlotsWithinBounds now minimumBookingNotice isTimeViolatingFutureLimit
          slots foundAFutureLimitViolation with
      | .error e => .error e
      | .ok (filteredSlots, found) =>
        match mapWithinBoundsGo now minimumBookingNotice isTimeViolatingFutureLimit
            doesStartFromToday rest found with
        | .error e => .error e
        | .ok tail =>
          .ok (if 0 < filteredSlots.length then (date, filteredSlots) :: tail else tail)

/-- `_mapWithinBoundsSlotsToDate`. -/
def mapWithinBoundsSlotsToDate (now : Int) (minimumBookingNotice : Nat)
    (isTimeViolatingFutureLimit : Int → Bool) (doesStartFromToday : Bool)
    (slotsMappedToDate : SlotsMap) : Except TRPCError SlotsMap :=
  mapWithinBoundsGo now minimumBookingNotice isTimeViolatingFutureLimit
    doesStartFromToday slotsMappedToDate false

/-- The `handleNotificationWhenNoSlots` step: attempted only on an empty
result for a single-username request, wrapped in try/catch in the source,
so a failure is logged and swallowed and the step always succeeds. -/
def notificationStep (notifyResult : Except TRPCError Unit)
    (withinBoundsSlotsMappedToDate : SlotsMap) (singleUsername : Bool) :
    Except TRPCError Unit :=
  if withinBoundsSlotsMappedToDate.isEmpty && singleUsername then
    match notifyResult with
    | .ok _ => .ok ()
    | .error _ => .ok ()
  else .ok ()

/-- The snapshot / oracle environment of one `_getAvailableSlots`
computation.  Repository reads are snapshots; the external availability
pipeline (`calculateHostsAndAvailabilities` followed by
`getAggregatedAvailability`, both outside this excerpt) is the oracle
`avail pool windowStart windowStop` where `pool = true` selects
`allFallbackRRHosts ++ fixedHosts` and `pool = false` the
`qualifiedRRHosts ++ fixedHosts` set; `getSlots` (external) is the oracle
`getSlotsOracle`.  The model covers event types without a restriction
schedule (`restrictionScheduleId` unset, so the identity branch applies)
and with a period type other than `ROLLING_WINDOW` (the start-time
adjustment is the identity), and `currentSeats` is the snapshot produced
by the selected pool's availability computation. -/
structure Env where
  now : Int
  timeZoneOffset : Int → Int
  startTimeParsed : Option Int
  endTimeParsed : Option Int
  minimumBookingNotice : Nat
  eventLength : Nat
  eventTypeId : Nat
  seatsPerTimeSlot : Option Nat
  onlyShowFirstAvailableSlot : Bool
  doesStartFromToday : Bool
  isTimeViolatingFutureLimit : Int → Bool
  qualifiedRRHostsLen : Nat
  allFallbackRRHostsLen : Nat
  avail : Bool → Int → Int → List DateRange
  getSlotsOracle : List DateRange → List Slot
  bookerClientUid : Option String
  unexpiredSlots : List ReservedSlot
  deleteExpiredResult : Except TRPCError Unit
  currentSeats : Option (List SeatBooking)
  notifyResult : Except TRPCError Unit
  singleUsername : Bool

/-- The fairness/fallback region of `_getAvailableSlots` (from the
`hasFallbackRRHosts` computation through the possible recomputation):
returns whether the fallback pool replaced the qualified result, and the
aggregated availability actually used afterwards.  `avail` is the
external availability pipeline oracle (`true` selects the
fallback+fixed pool). -/
def computeWithFallback (now : Int) (minimumBookingNotice : Nat)
    (qualifiedRRHostsLen allFallbackRRHostsLen : Nat)
    (avail : Bool → Int → Int → List DateRange)
    (startTime endTime : Int) : Bool × List DateRange :=
  let twoWeeks := twoWeeksFromNow now
  let hasFallbackRRHosts := qualifiedRRHostsLen < allFallbackRRHostsLen
  let adjustedStart :=
    if hasFallbackRRHosts ∧ startTime < twoWeeks
    then getStartTime now minimumBookingNotice now else startTime
  let adjustedEnd :=
    if hasFallbackRRHosts ∧ endTime < twoWeeks
    then getStartTime now minimumBookingNotice twoWeeks else endTime
  let aggregatedAvailability := avail false adjustedStart adjustedEnd
  if hasFallbackRRHosts then
    let diff : Int :=
      if startTime < twoWeeks then
        match aggregatedAvailability with
        | [] => 1
        | r :: _ => dayDiff r.start twoWeeks
      else
        if aggregatedAvailability.isEmpty
            && (avail false now twoWeeks).isEmpty then 1 else 0
    if 0 < diff then (true, avail true startTime endTime)
    else (false, aggregatedAvailability)
  else (false, aggregatedAvailability)

/-- `_getAvailableSlots`: validation of the parsed time range, fallback
host-pool selection, slot generation (oracle), reserved-slot fetch with
expired cleanup, seat accounting and conflict filtering, date grouping,
bounds filtering, and the best-effort empty-result notification. -/
def getAvailableSlots (env : Env) (uuidGen : Nat → String) : Except TRPCError SlotsMap :=
  match env.startTimeParsed, env.endTimeParsed with
  | some startInput, some endInput =>
    let startTime := getStartTime env.now env.minimumBookingNotice startInput
    let endTime := endInput
    let aggregatedAvailability := (computeWithFallback env.now env.minimumBookingNotice
      env.qualifiedRRHostsLen env.allFallbackRRHostsLen env.avail startTime endTime).2
    let timeSlots := env.getSlotsOracle aggregatedAvailability
    let availableTimeSlots := timeSlots
    match getReservedSlotsAndCleanupExpired env.bookerClientUid env.unexpiredSlots
        env.deleteExpiredResult with
    | .error e => .error e
    | .ok reservedSlots =>
      let seated := seatsBlock uuidGen env.eventTypeId env.eventLength
        env.seatsPerTimeSlot env.currentSeats reservedSlots availableTimeSlots
      let slotsMappedToDate := mapSlotsToDate env.timeZoneOffset
        env.onlyShowFirstAvailableSlot (seated.1.getD []) seated.2
      match mapWithinBoundsSlotsToDate env.now env.minimumBookingNotice
          env.isTimeViolatingFutureLimit env.doesStartFromToday slotsMappedToDate with
      | .error e => .error e
      | .ok withinBoundsSlotsMappedToDate =>
        match notificationStep env.notifyResult withinBoundsSlotsMappedToDate
            env.singleUsername with
        | .error e => .error e
        | .ok _ => .ok withinBoundsSlotsMappedToDate
  | _, _ => .error invalidTimeRangeError

/-- A period granularity of an interval limit
(`PER_DAY | PER_WEEK | PER_MONTH | PER_YEAR` mapped through
`intervalLimitKeyToUnit`; the key and its unit are identified here). -/
inductive LimitUnit
  | day
  | week
  | month
  | year
deriving DecidableEq, Repr

/-- Modelled from the spec: `descendingLimitKeys` (imported from
`@calcom/lib/intervalLimits/intervalLimit`, not part of this excerpt);
§4.2 iterates granularities from finest (day) to coarsest (year). -/
def descendingLimitKeys : List LimitUnit :=
  [LimitUnit.day, LimitUnit.week, LimitUnit.month, LimitUnit.year]

/-- A pre-fetched busy booking used by the limit passes of
`_getBusyTimesFromLimitsForUsers` (start/end instants, owning user). -/
structure LimitBooking where
  start : Int
  stop : Int
  userId : Nat
deriving DecidableEq, Repr

/-- The `LimitManager` busy state: the (granularity, period start) pairs
already marked exhausted. -/
abbrev LimitState := List (LimitUnit × Int)

/-- Modelled from the spec: `LimitManager.isAlreadyBusy` (imported from
`@calcom/lib/intervalLimits/limitManager`, not part of this excerpt);
per §4.2 a period start already marked exhausted — in particular at a
finer granularity, which is visited first — is skipped at every later
granularity with the same start. -/
def isAlreadyBusy (st : LimitState) (periodStart : Int) (_unit : LimitUnit) : Bool :=
  st.any (fun p => p.2 = periodStart)

/-- Modelled from the spec: `LimitManager.addBusyTime` records the
(granularity, period start) mark. -/
def addBusyTime (st : LimitState) (unit : LimitUnit) (periodStart : Int) : LimitState :=
  st ++ [(unit, periodStart)]

/-- Modelled from the spec: `isBookingWithinPeriod` (imported from
`@calcom/lib/intervalLimits/utils`, not part of this excerpt) — the
booking's start lies strictly within `[periodStart, periodEnd)`. -/
def isBookingWithinPeriod (booking : LimitBooking) (periodStart periodEnd : Int) : Bool :=
  decide (periodStart ≤ booking.start) && decide (booking.start < periodEnd)

/-- The inner booking-count loop of the limit passes
(`for (const booking of ...) { ...; totalBookings++; if (totalBookings >=
limit) { addBusyTime; break } }`): returns whether the period was marked
exhausted, scanning only until the limit is hit. -/
def bookingLimitScan (periodStart periodEnd : Int) (limit : Nat) :
    List LimitBooking → Nat → Bool
  | [], _ => false
  | booking :: rest, totalBookings =>
    if isBookingWithinPeriod booking periodStart periodEnd then
      if limit ≤ totalBookings + 1 then true
      else bookingLimitScan periodStart periodEnd limit rest (totalBookings + 1)
    else bookingLimitScan periodStart periodEnd limit rest totalBookings

/-- The inner duration loop of the per-user duration-limit pass
(`totalDuration += dayjs(booking.end).diff(dayjs(booking.start),
"minute"); if (totalDuration > limit) { addBusyTime; break }`), started
at the prospective event's `selectedDuration`. -/
def durationLimitScan (periodStart periodEnd : Int) (limit : Nat) :
    List LimitBooking → Int → Bool
  | [], _ => false
  | booking :: rest, totalDuration =>
    if isBookingWithinPeriod booking periodStart periodEnd then
      let totalDuration := totalDuration + (booking.stop - booking.start).tdiv msPerMinute
      if (limit : Int) < totalDuration then true
      else durationLimitScan periodStart periodEnd limit rest totalDuration
    else durationLimitScan periodStart periodEnd limit rest totalDuration

/-- The minutes of booking time falling within `[periodStart, periodEnd)`
among the pre-fetched bookings. -/
def durationWithin (bookings : List LimitBooking) (periodStart periodEnd : Int) : Int :=
  ((bookings.filter (fun b => isBookingWithinPeriod b periodStart periodEnd)).map
    (fun b => (b.stop - b.start).tdiv msPerMinute)).sum

/-- One period-start iteration of a booking-count limit pass: skip if the
period start is already marked busy, otherwise scan the pre-fetched
bookings for the period `[periodStart, endOf periodStart)` and mark it
exhausted once the running count reaches the limit. -/
def processPeriod (bookings : List LimitBooking) (limit : Nat) (endOf : Int → Int)
    (st : LimitState) (unit : LimitUnit) (periodStart : Int) : LimitState :=
  if isAlreadyBusy st periodStart unit then st
  else if bookingLimitScan periodStart (endOf periodStart) limit bookings 0 then
    addBusyTime st unit periodStart
  else st

/-- One period-start iteration of the (non-year) duration-limit pass of
`_getBusyTimesFromLimitsForUsers`: skip if already busy, pre-mark when
the prospective event's duration alone exceeds the limit, otherwise run
the accumulating duration scan (the year granularity instead consults a
live total, outside this model). -/
def processDurationPeriod (bookings : List LimitBooking) (limit : Nat)
    (selectedDuration : Nat) (endOf : Int → Int)
    (st : LimitState) (unit : LimitUnit) (periodStart : Int) : LimitState :=
  if isAlreadyBusy st periodStart unit then st
  else if limit < selectedDuration then addBusyTime st unit periodStart
  else if durationLimitScan periodStart (endOf periodStart) limit bookings
      (selectedDuration : Int) then
    addBusyTime st unit periodStart
  else st

/-- The global booking-limit pass of `_getBusyTimesFromLimitsForUsers`
(and `_getBusyTimesFromTeamLimitsForUsers`): for each granularity in
`descendingLimitKeys` order carrying a configured limit, walk the
period-start boundaries (`getPeriodStartDatesBetween`, external, passed
as the `periodStarts` oracle together with the `endOf` oracle for
`periodStart.endOf(unit)`). -/
def runBookingLimitPass (bookings : List LimitBooking)
    (limits : LimitUnit → Option Nat) (periodStarts : LimitUnit → List Int)
    (endOf : LimitUnit → Int → Int) : LimitState :=
  descendingLimitKeys.foldl (fun st unit =>
    match limits unit with
    | none => st
    | some limit =>
      (periodStarts unit).foldl
        (fun st periodStart => processPeriod bookings limit (endOf unit) st unit periodStart)
        st) []

/-- A neutral concrete environment used by the concrete instantiations
below: UTC booker timezone, a four-week window from the epoch, no limits,
no seats, no reserved holds, all repository effects succeeding. -/
def baseEnv : Env := {
  now := 0
  timeZoneOffset := fun _ => 0
  startTimeParsed := some 0
  endTimeParsed := some (28 * msPerDay)
  minimumBookingNotice := 0
  eventLength := 30
  eventTypeId := 1
  seatsPerTimeSlot := none
  onlyShowFirstAvailableSlot := false
  doesStartFromToday := false
  isTimeViolatingFutureLimit := fun _ => false
  qualifiedRRHostsLen := 0
  allFallbackRRHostsLen := 0
  avail := fun _ _ _ => []
  getSlotsOracle := fun _ => []
  bookerClientUid := none
  unexpiredSlots := []
  deleteExpiredResult := .ok ()
  currentSeats := none
  notifyResult := .ok ()
  singleUsername := false }

/-- One concrete `uuid()` supply. -/
def uuidSupplyA : Nat → String := fun _ => "uuid-a"

/-- A second concrete `uuid()` supply, differing from `uuidSupplyA`. -/
def uuidSupplyB : Nat → String := fun _ => "uuid-b"

/-- Concrete environment for the idempotence claim: a 2-seat event with
one slot, one unexpired reserved-seat hold from another session at that
slot, and no confirmed seat bookings. -/
def envIdem : Env := { baseEnv with
  seatsPerTimeSlot := some 2
  getSlotsOracle := fun _ => [{ time := 86400000 }]
  unexpiredSlots := [{ uid := "other-session", slotUtcStartDate := 86400000,
                       slotUtcEndDate := 88200000, isSeat := true, eventTypeId := 1 }] }

/-- Concrete environment where the expired-slot cleanup repository call
rejects. -/
def envCleanupFails : Env := { baseEnv with
  getSlotsOracle := fun _ => [{ time := 86400000 }]
  deleteExpiredResult := .error { code := "INTERNAL_SERVER_ERROR", message := "cleanup failed" } }

/-- Concrete environment whose parsed time range has its end strictly
before its start (both parsable). -/
def envEndBeforeStart : Env := { baseEnv with
  startTimeParsed := some (2 * msPerDay)
  endTimeParsed := some msPerDay }

/-- Concrete environment for the fairness fallback: one qualified and two
fallback round-robin hosts; the qualified pool's earliest aggregated
range starts one hour after the two-week mark (1209600000 ms), while the
fallback pool has availability in hour one. -/
def envFallback : Env := { baseEnv with
  qualifiedRRHostsLen := 1
  allFallbackRRHostsLen := 2
  avail := fun pool _ _ =>
    if pool then [{ start := 3600000, stop := 7200000 }]
    else [{ start := 1213200000, stop := 1216800000 }] }

/-- Concrete environment for the seat-capacity witness: a 2-seat event,
one confirmed seat booking with one attendee at the only slot. -/
def envSeatCap : Env := { baseEnv with
  seatsPerTimeSlot := some 2
  currentSeats := some [{ uid := "bk1", startTime := 86400000, attendees := 1 }]
  getSlotsOracle := fun _ => [{ time := 86400000 }] }

/-- Concrete environment for the date-grouping witness: a booker timezone
at UTC-5 and two slots on the same booker-local date. -/
def envDateKey : Env := { baseEnv with
  timeZoneOffset := fun _ => -300
  getSlotsOracle := fun _ => [{ time := 86400000 }, { time := 90000000 }] }

/-- Concrete pre-fetched booking of 30 minutes used by the limit-pass
counterexample. -/
def limitBookingHalfHour : LimitBooking := { start := 0, stop := 1800000, userId := 7 }

/-- Concrete environment for the fairness-fallback witness: the qualified
pool has no availability at all, the fallback pool is available in hour
one. -/
def envFallbackQualifiedEmpty : Env := { baseEnv with
  qualifiedRRHostsLen := 1
  allFallbackRRHostsLen := 2
  avail := fun pool _ _ =>
    if pool then [{ start := 3600000, stop := 7200000 }] else [] }

/-- The uid-independent projection of a `CurrentSeats` entry. -/
def seatKey (b : SeatBooking) : Int × Nat := (b.startTime, b.attendees)

/-- The start instants of the confirmed-seat snapshot entries. -/
def snapshotSeatTimes (currentSeats : Option (List SeatBooking)) : List Int :=
  (currentSeats.getD []).map (fun b => b.startTime)

/-- Erase the `bookingUid` of a slot whose instant is not covered by the
confirmed-seat snapshot (such uids are freshly generated `uuid()`s). -/
def stripOutSlot (snapshotTimes : List Int) (s : OutSlot) : OutSlot :=
  if snapshotTimes.contains s.time then s else { s with bookingUid := none }

/-- Apply `stripOutSlot` across a slots map. -/
def stripFreshUids (snapshotTimes : List Int) (m : SlotsMap) : SlotsMap :=
  m.map (fun p => (p.1, p.2.map (stripOutSlot snapshotTimes)))

/-- Every slot of the map that carries an `attendees` count respects the
given seat capacity. -/
def allSlotsWithinCap (cap : Nat) (m : SlotsMap) : Bool :=
  m.all (fun p => p.2.all (fun s => s.attendees.all (fun a => a ≤ cap)))

/-- Every slot of the map is grouped under the date key obtained by
rendering its own instant in the booker's timezone. -/
def slotsOnOwnDateKey (timeZoneOffset : Int → Int) (m : SlotsMap) : Bool :=
  m.all (fun p => p.2.all (fun s => formatDateKey timeZoneOffset s.time = p.1))

/-- C2 counterexample: with a strictly larger fallback pool and a
requested window starting inside the first two weeks, the qualified
pool's earliest aggregated slot starts one hour after the two-week mark —
"more than 2 weeks from now" — yet `computeWithFallback` keeps the
qualified-only result (the truncated day-difference is 0), instead of
replacing it with the fallback pool's recomputation. -/
theorem fairnessFallbackCounterexample :
    envFallback.qualifiedRRHostsLen < envFallback.allFallbackRRHostsLen ∧
    twoWeeksFromNow envFallback.now < 1213200000 ∧
    computeWithFallback envFallback.now envFallback.minimumBookingNotice
        envFallback.qualifiedRRHostsLen envFallback.allFallbackRRHostsLen
        envFallback.avail 60000 1209599999
      = (false, [{ start := 1213200000, stop := 1216800000 }]) ∧
    computeWithFallback envFallback.now envFallback.minimumBookingNotice
        envFallback.qualifiedRRHostsLen envFallback.allFallbackRRHostsLen
        envFallback.avail 60000 1209599999
      ≠ (true, envFallback.avail true 60000 1209599999) := by
  refine ⟨by decide, by decide, by decide, by decide⟩

/-- C2 amended: given a strictly larger fallback pool, the fallback+fixed
pool's availability over the originally requested window replaces the
qualified-only result exactly in these cases — (a) the window starts
inside the first two weeks and the qualified aggregation over the
two-week-extended window is empty or its earliest range starts with a
positive truncated day-difference past the two-week mark; (b) the window
starts at or beyond the two-week mark and both the requested window and
the first two weeks are empty for the qualified pool. -/
theorem fairnessFallbackAmended (now : Int) (minimumBookingNotice : Nat)
    (qualifiedRRHostsLen allFallbackRRHostsLen : Nat)
    (avail : Bool → Int → Int → List DateRange)
    (startTime endTime twoWeeks : Int)
    (adjustedStart adjustedEnd : Int) (agg : List DateRange)
    (hfb : qualifiedRRHostsLen < allFallbackRRHostsLen)
    (htw : twoWeeks = twoWeeksFromNow now)
    (hs : adjustedStart = if startTime < twoWeeks
        then getStartTime now minimumBookingNotice now else startTime)
    (he : adjustedEnd = if endTime < twoWeeks
        then getStartTime now minimumBookingNotice twoWeeks else endTime)
    (hagg : agg = avail false adjustedStart adjustedEnd) :
    (startTime < twoWeeks →
      (agg = [] ∨ ∃ r rs, agg = r :: rs ∧ 0 < dayDiff r.start twoWeeks) →
      computeWithFallback now minimumBookingNotice qualifiedRRHostsLen
        allFallbackRRHostsLen avail startTime endTime
        = (true, avail true startTime endTime)) ∧
    (twoWeeks ≤ startTime → agg = [] → avail false now twoWeeks = [] →
      computeWithFallback now minimumBookingNotice qualifiedRRHostsLen
        allFallbackRRHostsLen avail startTime endTime
        = (true, avail true startTime endTime)) := by
  subst htw hs he hagg
  constructor
  · intro hlt hcase
    rw [if_pos hlt] at hcase
    simp only [computeWithFallback, hfb, hlt, and_true, true_and, if_true, if_pos]
    rcases hcase with hnil | ⟨r, rs, hcons, hdiff⟩
    · rw [hnil]
      simp
    · rw [hcons]
      simp [hdiff]
  · intro hge hnil hnil2
    have hnlt : ¬ startTime < twoWeeksFromNow now := not_lt.mpr hge
    simp only [computeWithFallback, hfb, hnlt, and_false, false_and, if_false, true_and,
      if_neg, if_pos]
    rw [if_neg hnlt] at hnil
    simp [hnlt, hnil, hnil2]

/-- C2 witness: applying the amended fallback rule at a concrete
environment whose qualified pool has no availability in the extended
window. -/
theorem fairnessFallbackWitness :
    computeWithFallback envFallbackQualifiedEmpty.now
        envFallbackQualifiedEmpty.minimumBookingNotice
        envFallbackQualifiedEmpty.qualifiedRRHostsLen
        envFallbackQualifiedEmpty.allFallbackRRHostsLen
        envFallbackQualifiedEmpty.avail 60000 1209599999
      = (true, [{ start := 3600000, stop := 7200000 }]) :=
  ((fairnessFallbackAmended envFallbackQualifiedEmpty.now
      envFallbackQualifiedEmpty.minimumBookingNotice
      envFallbackQualifiedEmpty.qualifiedRRHostsLen
      envFallbackQualifiedEmpty.allFallbackRRHostsLen
      envFallbackQualifiedEmpty.avail 60000 1209599999 1209600000
      60000 1209600000 [] (by decide) (by decide) (by decide) (by decide) (by decide)).1
    (by decide) (Or.inl rfl)).trans (by decide)

/-- C3: booking-limit granularities are iterated from finest (day) to
coarsest (year), and a period-start boundary already marked exhausted —
in particular at a finer granularity, which is visited first — is skipped
without rescanning the bookings when a coarser granularity reaches the
same period start. -/
theorem limitGranularityOrder :
    descendingLimitKeys = [LimitUnit.day, LimitUnit.week, LimitUnit.month, LimitUnit.year] ∧
    ∀ (bookings : List LimitBooking) (limit : Nat) (endOf : Int → Int)
      (st : LimitState) (unit : LimitUnit) (periodStart : Int),
      isAlreadyBusy st periodStart unit = true →
      processPeriod bookings limit endOf st unit periodStart = st := by
  refine ⟨rfl, ?_⟩
  intro bookings limit endOf st unit periodStart hbusy
  simp [processPeriod, hbusy]

/-- C3 witness: a period start exhausted at day granularity is left
untouched when the month granularity reaches the same start. -/
theorem limitGranularityOrderWitness :
    descendingLimitKeys = [LimitUnit.day, LimitUnit.week, LimitUnit.month, LimitUnit.year] ∧
    processPeriod [] 1 (fun t => t) [(LimitUnit.day, 5)] LimitUnit.month 5
      = [(LimitUnit.day, 5)] :=
  ⟨limitGranularityOrder.1,
   limitGranularityOrder.2 [] 1 (fun t => t) [(LimitUnit.day, 5)] LimitUnit.month 5 (by decide)⟩

/-- The booking-count scan marks the period exactly when the within-period
bookings bring the running total to the limit. -/
theorem bookingLimitScan_spec (periodStart periodEnd : Int) (limit : Nat) :
    ∀ (bookings : List LimitBooking) (total : Nat), total < limit →
      (bookingLimitScan periodStart periodEnd limit bookings total = true ↔
        limit ≤ total + bookings.countP
          (fun b => isBookingWithinPeriod b periodStart periodEnd)) := by
  intro bookings
  induction bookings with
  | nil =>
    intro total ht
    simp [bookingLimitScan]
    omega
  | cons b rest ih =>
    intro total ht
    cases hb : isBookingWithinPeriod b periodStart periodEnd with
    | false =>
      simp only [bookingLimitScan, hb, Bool.false_eq_true, if_false, List.countP_cons,
        Bool.false_eq_true, if_false, add_zero]
      exact ih total ht
    | true =>
      by_cases hl : limit ≤ total + 1
      · simp only [bookingLimitScan, hb, List.countP_cons, hb, if_pos hl]
        simp only [if_true]
        constructor
        · intro _; omega
        · intro _; trivial
      · simp only [bookingLimitScan, hb, List.countP_cons, hb, if_true]
        rw [if_neg hl, ih (total + 1) (by omega)]
        omega

/-- Once the booking-count scan already hit the limit on a prefix, the
remaining bookings never change the outcome: the scan short-circuits. -/
theorem bookingLimitScan_append (periodStart periodEnd : Int) (limit : Nat) :
    ∀ (pre post : List LimitBooking) (total : Nat),
      bookingLimitScan periodStart periodEnd limit pre total = true →
      bookingLimitScan periodStart periodEnd limit (pre ++ post) total = true := by
  intro pre
  induction pre with
  | nil => intro post total h; exact absurd h (by simp [bookingLimitScan])
  | cons b rest ih =>
    intro post total h
    simp only [List.cons_append, bookingLimitScan] at h ⊢
    by_cases hb : isBookingWithinPeriod b periodStart periodEnd = true
    · rw [if_pos hb] at h ⊢
      by_cases hl : limit ≤ total + 1
      · rw [if_pos hl]
      · rw [if_neg hl] at h ⊢
        exact ih post _ h
    · rw [if_neg hb] at h ⊢
      exact ih post _ h

/-- Unfolding `durationWithin` over a cons. -/
theorem durationWithin_cons (b : LimitBooking) (rest : List LimitBooking)
    (periodStart periodEnd : Int) :
    durationWithin (b :: rest) periodStart periodEnd =
      (if isBookingWithinPeriod b periodStart periodEnd
       then (b.stop - b.start).tdiv msPerMinute else 0)
        + durationWithin rest periodStart periodEnd := by
  cases hb : isBookingWithinPeriod b periodStart periodEnd with
  | true => simp [durationWithin, List.filter_cons, hb]
  | false => simp [durationWithin, List.filter_cons, hb]

/-- With well-formed bookings the within-period duration is nonnegative. -/
theorem durationWithin_nonneg (bookings : List LimitBooking) (periodStart periodEnd : Int)
    (hwf : ∀ b ∈ bookings, b.start ≤ b.stop) :
    0 ≤ durationWithin bookings periodStart periodEnd := by
  induction bookings with
  | nil => simp [durationWithin]
  | cons b rest ih =>
    rw [durationWithin_cons]
    have h1 : (0 : Int) ≤ (b.stop - b.start).tdiv msPerMinute := by
      apply Int.tdiv_nonneg
      · have := hwf b (by simp); omega
      · decide
    have h2 := ih (fun x hx => hwf x (by simp [hx]))
    by_cases hb : isBookingWithinPeriod b periodStart periodEnd = true
    · rw [if_pos hb]; omega
    · rw [if_neg hb]; omega

/-- The duration scan marks the period exactly when the accumulated value
(started at the prospective event's duration) strictly exceeds the
limit. -/
theorem durationLimitScan_spec (periodStart periodEnd : Int) (limit : Nat) :
    ∀ (bookings : List LimitBooking) (total : Int),
      (∀ b ∈ bookings, b.start ≤ b.stop) → total ≤ (limit : Int) →
      (durationLimitScan periodStart periodEnd limit bookings total = true ↔
        (limit : Int) < total + durationWithin bookings periodStart periodEnd) := by
  intro bookings
  induction bookings with
  | nil =>
    intro total hwf htot
    simp [durationLimitScan, durationWithin]
    omega
  | cons b rest ih =>
    intro total hwf htot
    have hrest : ∀ x ∈ rest, x.start ≤ x.stop := fun x hx => hwf x (by simp [hx])
    have hd : (0 : Int) ≤ (b.stop - b.start).tdiv msPerMinute := by
      apply Int.tdiv_nonneg
      · have := hwf b (by simp); omega
      · decide
    have hrest0 := durationWithin_nonneg rest periodStart periodEnd hrest
    rw [durationWithin_cons]
    by_cases hb : isBookingWithinPeriod b periodStart periodEnd = true
    · rw [if_pos hb]
      simp only [durationLimitScan, hb, if_true]
      by_cases hl : (limit : Int) < total + (b.stop - b.start).tdiv msPerMinute
      · rw [if_pos hl]
        constructor
        · intro _; omega
        · intro _; rfl
      · rw [if_neg hl, ih (total + (b.stop - b.start).tdiv msPerMinute) hrest (by omega)]
        omega
    · rw [if_neg hb]
      simp only [durationLimitScan, hb, Bool.false_eq_true, if_false]
      rw [ih total hrest htot]
      omega

/-- Marking a period changes the limit state. -/
theorem addBusyTime_ne (st : LimitState) (unit : LimitUnit) (periodStart : Int) :
    addBusyTime st unit periodStart ≠ st := by
  intro h
  have := congrArg List.length h
  simp [addBusyTime] at this

/-- C4 amended: for a period-start boundary not already marked exhausted,
the booking-count evaluator marks it exhausted exactly when the count of
pre-fetched bookings within `[periodStart, periodEnd)` reaches or
exceeds the limit, and it short-circuits at the booking that hits the
limit; the duration evaluator instead marks it exactly when the
prospective event's duration plus the accumulated within-period booking
durations strictly exceeds the limit (reaching the limit exactly does
not mark, and the event's own duration participates). -/
theorem limitExhaustionAmended (bookings : List LimitBooking) (periodStart : Int)
    (endOf : Int → Int) (limit selectedDuration : Nat) (st : LimitState) (unit : LimitUnit)
    (hlim : 1 ≤ limit)
    (hwf : ∀ b ∈ bookings, b.start ≤ b.stop)
    (hnb : isAlreadyBusy st periodStart unit = false) :
    (processPeriod bookings limit endOf st unit periodStart
        = addBusyTime st unit periodStart ↔
      limit ≤ bookings.countP
        (fun b => isBookingWithinPeriod b periodStart (endOf periodStart))) ∧
    (processDurationPeriod bookings limit selectedDuration endOf st unit periodStart
        = addBusyTime st unit periodStart ↔
      (limit : Int) < (selectedDuration : Int)
        + durationWithin bookings periodStart (endOf periodStart)) ∧
    (∀ pre post : List LimitBooking,
      bookingLimitScan periodStart (endOf periodStart) limit pre 0 = true →
      bookingLimitScan periodStart (endOf periodStart) limit (pre ++ post) 0
        = bookingLimitScan periodStart (endOf periodStart) limit pre 0) := by
  have hscan := bookingLimitScan_spec periodStart (endOf periodStart) limit bookings 0
    (by omega)
  have hwithin0 := durationWithin_nonneg bookings periodStart (endOf periodStart) hwf
  refine ⟨?_, ?_, ?_⟩
  · unfold processPeriod
    rw [hnb]
    simp only [Bool.false_eq_true, if_false]
    by_cases hs : bookingLimitScan periodStart (endOf periodStart) limit bookings 0 = true
    · rw [if_pos hs]
      simp only [true_iff]
      have := hscan.mp hs
      omega
    · rw [if_neg hs]
      constructor
      · intro h; exact absurd h.symm (addBusyTime_ne st unit periodStart)
      · intro h
        exact absurd (hscan.mpr (by omega)) hs
  · unfold processDurationPeriod
    rw [hnb]
    simp only [Bool.false_eq_true, if_false]
    by_cases hpre : limit < selectedDuration
    · rw [if_pos hpre]
      simp only [true_iff]
      omega
    · rw [if_neg hpre]
      have hsel : (selectedDuration : Int) ≤ (limit : Int) := by omega
      have hdscan := durationLimitScan_spec periodStart (endOf periodStart) limit bookings
        (selectedDuration : Int) hwf hsel
      by_cases hs : durationLimitScan periodStart (endOf periodStart) limit bookings
          (selectedDuration : Int) = true
      · rw [if_pos hs]
        simp only [true_iff]
        exact hdscan.mp hs
      · rw [if_neg hs]
        constructor
        · intro h; exact absurd h.symm (addBusyTime_ne st unit periodStart)
        · intro h; exact absurd (hdscan.mpr h) hs
  · intro pre post hpre
    rw [hpre]
    exact bookingLimitScan_append periodStart (endOf periodStart) limit pre post 0 hpre

/-- C4 counterexample: a duration limit of 60 minutes, a prospective
event of 45 minutes and one 30-minute booking inside the period — the
accumulated duration of pre-fetched bookings (30) has not reached the
limit (60), yet the evaluator marks the period exhausted, refuting the
claim's "exactly when the running count (or accumulated duration) of
pre-fetched bookings ... reaches or exceeds the configured limit". -/
theorem limitExhaustionCounterexample :
    processDurationPeriod [limitBookingHalfHour] 60 45 (fun _ => msPerDay) [] LimitUnit.day 0
      = addBusyTime [] LimitUnit.day 0 ∧
    durationWithin [limitBookingHalfHour] 0 msPerDay = 30 ∧ ¬(60 ≤ 30) := by
  refine ⟨by decide, by decide, by decide⟩

/-- C4 witness: the amended characterisation applied at a concrete
period holding one within-period booking against a count limit of 1. -/
theorem limitExhaustionWitness :
    processPeriod [limitBookingHalfHour] 1 (fun _ => msPerDay) [] LimitUnit.day 0
      = addBusyTime [] LimitUnit.day 0 :=
  ((limitExhaustionAmended [limitBookingHalfHour] 0 (fun _ => msPerDay) 1 0 [] LimitUnit.day
      (by decide) (by decide) (by decide)).1).mpr (by decide)

/-- A slot before now aborts the bounds filter with the
booking-in-the-past BAD_REQUEST error. -/
theorem filterSlotsWithinBounds_past (now : Int) (mbn : Nat) (fl : Int → Bool) :
    ∀ (slots : List OutSlot) (found : Bool),
      (∃ s ∈ slots, s.time < now) →
      filterSlotsWithinBounds now mbn fl slots found = .error bookingDateInPastError := by
  intro slots
  induction slots with
  | nil =>
    intro found h
    rcases h with ⟨s, hs, _⟩
    simp at hs
  | cons s rest ih =>
    intro found h
    by_cases hp : s.time < now
    · simp only [filterSlotsWithinBounds, isTimeOutOfBoundsChecked, if_pos hp]
    · rcases h with ⟨x, hx, hxlt⟩
      rcases List.mem_cons.mp hx with rfl | hx2
      · exact absurd hxlt hp
      · simp only [filterSlotsWithinBounds, isTimeOutOfBoundsChecked, if_neg hp]
        rw [ih _ ⟨x, hx2, hxlt⟩]

/-- Without past slots the bounds filter succeeds. -/
theorem filterSlotsWithinBounds_ok (now : Int) (mbn : Nat) (fl : Int → Bool) :
    ∀ (slots : List OutSlot) (found : Bool),
      (∀ s ∈ slots, ¬ s.time < now) →
      ∃ keep foundOut,
        filterSlotsWithinBounds now mbn fl slots found = .ok (keep, foundOut) := by
  intro slots
  induction slots with
  | nil => intro found _; exact ⟨[], found, rfl⟩
  | cons s rest ih =>
    intro found hno
    have hp : ¬ s.time < now := hno s (by simp)
    rcases ih (found || fl s.time) (fun x hx => hno x (by simp [hx])) with ⟨keep, fo, heq⟩
    refine ⟨(if !(fl s.time) && !(decide (s.time < now + mbn * msPerMinute))
             then s :: keep else keep), fo, ?_⟩
    simp only [filterSlotsWithinBounds, isTimeOutOfBoundsChecked, if_neg hp]
    rw [heq]

/-- When the period type does not start from today (no early break), any
past slot anywhere in the map aborts the date loop with the
booking-in-the-past error. -/
theorem mapWithinBoundsGo_past (now : Int) (mbn : Nat) (fl : Int → Bool) :
    ∀ (m : SlotsMap) (found : Bool),
      (∃ p ∈ m, ∃ s ∈ p.2, s.time < now) →
      mapWithinBoundsGo now mbn fl false m found = .error bookingDateInPastError := by
  intro m
  induction m with
  | nil =>
    intro found h
    rcases h with ⟨p, hp, _⟩
    simp at hp
  | cons e rest ih =>
    intro found h
    obtain ⟨d, ss⟩ := e
    simp only [mapWithinBoundsGo, Bool.and_false, Bool.false_eq_true, if_false]
    by_cases hpast : ∃ s ∈ ss, s.time < now
    · rw [filterSlotsWithinBounds_past now mbn fl ss found hpast]
    · rcases h with ⟨p, hp, hs⟩
      rcases List.mem_cons.mp hp with rfl | hp2
      · exact absurd hs hpast
      · rcases filterSlotsWithinBounds_ok now mbn fl ss found
          (fun s hsm hlt => hpast ⟨s, hsm, hlt⟩) with ⟨keep, fo, heq⟩
        simp only [heq, ih fo ⟨p, hp2, hs⟩]

/-- C7 amended: `_getAvailableSlots` fails with the BAD_REQUEST invalid
time range error exactly on an unparsable start or end, and bounds
filtering fails with the BAD_REQUEST booking-in-the-past error when it
scans a slot before now (here stated for period types that do not start
from today, where no early break can skip the slot); a parsable range
whose end is before its start is not rejected. -/
theorem badRequestAmended :
    (∀ (env : Env) (uuidGen : Nat → String),
      env.startTimeParsed = none ∨ env.endTimeParsed = none →
      getAvailableSlots env uuidGen = .error invalidTimeRangeError) ∧
    (∀ (now : Int) (minimumBookingNotice : Nat) (limitOracle : Int → Bool) (m : SlotsMap),
      (∃ p ∈ m, ∃ s ∈ p.2, s.time < now) →
      mapWithinBoundsSlotsToDate now minimumBookingNotice limitOracle false m
        = .error bookingDateInPastError) := by
  constructor
  · intro env uuidGen h
    rcases h with h | h
    · unfold getAvailableSlots
      rw [h]
    · unfold getAvailableSlots
      rw [h]
      cases env.startTimeParsed <;> rfl
  · intro now mbn fl m h
    unfold mapWithinBoundsSlotsToDate
    exact mapWithinBoundsGo_past now mbn fl m false h

/-- C7 counterexample: a parsable time range whose end (day 1) precedes
its start (day 2) does not raise BAD_REQUEST — the computation returns an
ordinary (empty) slot map. -/
theorem badRequestCounterexample :
    envEndBeforeStart.startTimeParsed = some 172800000 ∧
    envEndBeforeStart.endTimeParsed = some 86400000 ∧ (86400000 : Int) < 172800000 ∧
    getAvailableSlots envEndBeforeStart uuidSupplyA = .ok [] := by
  refine ⟨rfl, rfl, by decide, rfl⟩

/-- C7 witness: the amended error rule applied to an unparsable start and
to a map holding a slot one minute before now. -/
theorem badRequestWitness :
    getAvailableSlots { baseEnv with startTimeParsed := none } uuidSupplyA
      = .error invalidTimeRangeError ∧
    mapWithinBoundsSlotsToDate 0 0 (fun _ => false) false
      [(0, [{ time := -60000, attendees := none, bookingUid := none }])]
      = .error bookingDateInPastError :=
  ⟨badRequestAmended.1 { baseEnv with startTimeParsed := none } uuidSupplyA (Or.inl rfl),
   badRequestAmended.2 0 0 (fun _ => false) _
     ⟨(0, [{ time := -60000, attendees := none, bookingUid := none }]), by simp,
      { time := -60000, attendees := none, bookingUid := none }, by simp, by decide⟩⟩

/-- The try/catch around `handleNotificationWhenNoSlots` makes the
notification step infallible. -/
theorem notificationStep_ok (r : Except TRPCError Unit) (w : SlotsMap) (s : Bool) :
    notificationStep r w s = .ok () := by
  unfold notificationStep
  by_cases h : (w.isEmpty && s) = true
  · rw [if_pos h]
    cases r <;> rfl
  · rw [if_neg h]

/-- C8 amended: a failure of the notification dispatch is caught and
never changes the result, but a failure of the expired-slot deletion is
awaited without a catch and propagates, aborting the computation instead
of returning the computed slots. -/
theorem bestEffortSideEffectsAmended (env : Env) (uuidGen : Nat → String)
    (s t : Int) (e : TRPCError)
    (hs : env.startTimeParsed = some s) (ht : env.endTimeParsed = some t) :
    (env.deleteExpiredResult = .error e → getAvailableSlots env uuidGen = .error e) ∧
    (∀ r : Except TRPCError Unit,
      getAvailableSlots { env with notifyResult := r } uuidGen
        = getAvailableSlots env uuidGen) := by
  constructor
  · intro hdel
    unfold getAvailableSlots
    rw [hs, ht]
    unfold getReservedSlotsAndCleanupExpired
    rw [hdel]
  · intro r
    obtain ⟨now, tz, stp, etp, mbn, el, etid, seats, osf, dst, fl, q, f, avail, gso,
      bk, unexp, del, cs, notif, single⟩ := env
    simp only [getAvailableSlots, notificationStep_ok]

/-- C8 counterexample: with `deleteManyExpiredSlots` rejecting, the whole
computation rejects with that error, although the same snapshot with a
succeeding cleanup returns a nonempty slot map. -/
theorem cleanupFailureCounterexample :
    getAvailableSlots envCleanupFails uuidSupplyA
      = .error { code := "INTERNAL_SERVER_ERROR", message := "cleanup failed" } ∧
    getAvailableSlots { envCleanupFails with deleteExpiredResult := .ok () } uuidSupplyA
      = .ok [(1, [{ time := 86400000, attendees := none, bookingUid := none }])] :=
  ⟨rfl, rfl⟩

/-- C8 witness: a failing notification leaves the result unchanged at a
concrete environment. -/
theorem bestEffortWitness :
    getAvailableSlots { baseEnv with notifyResult := .error invalidTimeRangeError } uuidSupplyA
      = getAvailableSlots baseEnv uuidSupplyA :=
  (bestEffortSideEffectsAmended baseEnv uuidSupplyA 0 (28 * msPerDay) invalidTimeRangeError
    rfl rfl).2 (.error invalidTimeRangeError)

/-- C9: unexpired reserved slots whose uid equals the requesting booker's
own client uid have no effect on the computation — adding any such own
holds to the snapshot leaves the whole result (slot removal, seat
occupancy, everything) unchanged. -/
theorem ownHoldsExcluded (env : Env) (uuidGen : Nat → String) (u : String)
    (ownHolds : List ReservedSlot)
    (hbk : env.bookerClientUid = some u)
    (hown : ∀ slot ∈ ownHolds, slot.uid = u) :
    getAvailableSlots { env with unexpiredSlots := env.unexpiredSlots ++ ownHolds } uuidGen
      = getAvailableSlots env uuidGen := by
  obtain ⟨now, tz, stp, etp, mbn, el, etid, seats, osf, dst, fl, q, f, avail, gso,
    bk, unexp, del, cs, notif, single⟩ := env
  have hbk2 : bk = some u := hbk
  subst hbk2
  have hres : getReservedSlotsAndCleanupExpired (some u) (unexp ++ ownHolds) del
      = getReservedSlotsAndCleanupExpired (some u) unexp del := by
    unfold getReservedSlotsAndCleanupExpired
    have hnil : ownHolds.filter (fun slot => !(some slot.uid == some u)) = [] := by
      apply List.filter_eq_nil_iff.mpr
      intro a ha
      simp [hown a ha]
    rw [List.filter_append, hnil, List.append_nil]
  simp only [getAvailableSlots, hres]

/-- C9 witness: one own-uid hold added to an otherwise empty snapshot
changes nothing. -/
theorem ownHoldsExcludedWitness :
    getAvailableSlots { baseEnv with
        bookerClientUid := some "me"
        unexpiredSlots := [⟨"me", 86400000, 88200000, false, 1⟩] } uuidSupplyA
      = getAvailableSlots { baseEnv with bookerClientUid := some "me" } uuidSupplyA :=
  ownHoldsExcluded { baseEnv with bookerClientUid := some "me" } uuidSupplyA "me"
    [⟨"me", 86400000, 88200000, false, 1⟩] rfl (by decide)

/-- Entries of `ensureKey` come from the map or are the fresh empty key. -/
theorem mem_ensureKey (m : SlotsMap) (k d : Int) (ss : List OutSlot)
    (h : (d, ss) ∈ ensureKey m k) : (d, ss) ∈ m ∨ (d = k ∧ ss = []) := by
  unfold ensureKey at h
  by_cases hk : hasKey m k = true
  · rw [if_pos hk] at h
    exact Or.inl h
  · rw [if_neg hk] at h
    rcases List.mem_append.mp h with h1 | h2
    · exact Or.inl h1
    · simp at h2
      exact Or.inr h2

/-- Entries of `pushKey` come from the map, with the pushed value possibly
appended at the matching key. -/
theorem mem_pushKey (m : SlotsMap) (k : Int) (v : OutSlot) (d : Int) (ss : List OutSlot)
    (h : (d, ss) ∈ pushKey m k v) :
    ∃ ss0, (d, ss0) ∈ m ∧ (ss = ss0 ∨ (d = k ∧ ss = ss0 ++ [v])) := by
  unfold pushKey at h
  rcases List.mem_map.mp h with ⟨p, hp, heq⟩
  obtain ⟨p1, p2⟩ := p
  by_cases hk : p1 = k
  · rw [if_pos hk] at heq
    obtain ⟨h1, h2⟩ := Prod.mk.injEq .. ▸ heq
    exact ⟨p2, h1 ▸ hp, Or.inr ⟨h1 ▸ hk, h2.symm⟩⟩
  · rw [if_neg hk] at heq
    obtain ⟨h1, h2⟩ := Prod.mk.injEq .. ▸ heq
    exact ⟨p2, h1 ▸ hp, Or.inl h2.symm⟩

/-- One `_mapSlotsToDate` step preserves a per-slot invariant provided the
pushed entry satisfies it at its own date key. -/
theorem mapSlotsToDateStep_mem (tz : Int → Int) (flag : Bool) (cs : List SeatBooking)
    (r : SlotsMap) (slot : Slot) (C : OutSlot → Int → Prop)
    (hr : ∀ d ss, (d, ss) ∈ r → ∀ s ∈ ss, C s d)
    (hv : C (slotEntry cs slot.time) (formatDateKey tz slot.time)) :
    ∀ d ss, (d, ss) ∈ mapSlotsToDateStep tz flag cs r slot → ∀ s ∈ ss, C s d := by
  intro d ss hm s hs
  simp only [mapSlotsToDateStep] at hm
  split at hm
  · rcases mem_ensureKey r (formatDateKey tz slot.time) d ss hm with h | ⟨rfl, rfl⟩
    · exact hr d ss h s hs
    · simp at hs
  · rcases mem_pushKey (ensureKey r (formatDateKey tz slot.time))
        (formatDateKey tz slot.time) (slotEntry cs slot.time) d ss hm with ⟨ss0, h0, hcase⟩
    rcases mem_ensureKey r (formatDateKey tz slot.time) d ss0 h0 with h0r | ⟨hdk, rfl⟩
    · rcases hcase with rfl | ⟨hdk, rfl⟩
      · exact hr d ss h0r s hs
      · rcases List.mem_append.mp hs with hs0 | hsv
        · exact hr d ss0 h0r s hs0
        · simp at hsv
          subst hsv
          exact hdk ▸ hv
    · rcases hcase with rfl | ⟨hdk2, rfl⟩
      · simp at hs
      · simp at hs
        subst hs
        exact hdk2 ▸ hv

/-- Every slot grouped by `_mapSlotsToDate` is the pushed entry of one of
the input slots, under that slot's own date key: the fold preserves any
per-slot invariant established for the pushed entries. -/
theorem mapSlotsToDate_mem (tz : Int → Int) (flag : Bool) (cs : List SeatBooking)
    (C : OutSlot → Int → Prop) :
    ∀ (slots : List Slot) (r : SlotsMap),
      (∀ d ss, (d, ss) ∈ r → ∀ s ∈ ss, C s d) →
      (∀ slot ∈ slots, C (slotEntry cs slot.time) (formatDateKey tz slot.time)) →
      ∀ d ss, (d, ss) ∈ slots.foldl (mapSlotsToDateStep tz flag cs) r →
        ∀ s ∈ ss, C s d := by
  intro slots
  induction slots with
  | nil =>
    intro r hr _ d ss hm s hs
    exact hr d ss hm s hs
  | cons slot rest ih =>
    intro r hr hnew d ss hm s hs
    rw [List.foldl_cons] at hm
    exact ih (mapSlotsToDateStep tz flag cs r slot)
      (mapSlotsToDateStep_mem tz flag cs r slot C hr (hnew slot (by simp)))
      (fun x hx => hnew x (by simp [hx])) d ss hm s hs

/-- The bounds filter returns a subset of its input slots. -/
theorem filterSlotsWithinBounds_sub (now : Int) (mbn : Nat) (fl : Int → Bool) :
    ∀ (slots : List OutSlot) (found : Bool) (keep : List OutSlot) (fo : Bool),
      filterSlotsWithinBounds now mbn fl slots found = .ok (keep, fo) →
      ∀ s ∈ keep, s ∈ slots := by
  intro slots
  induction slots with
  | nil =>
    intro found keep fo h s hs
    simp only [filterSlotsWithinBounds] at h
    injection h with h
    obtain ⟨h1, _⟩ := Prod.mk.injEq .. ▸ h
    subst h1
    simp at hs
  | cons x rest ih =>
    intro found keep fo h s hs
    simp only [filterSlotsWithinBounds] at h
    split at h
    · exact absurd h (by simp)
    · split at h
      · exact absurd h (by simp)
      · rename_i keep0 fo0 heq0
        injection h with h
        obtain ⟨h1, _⟩ := Prod.mk.injEq .. ▸ h
        subst h1
        split at hs
        · rcases List.mem_cons.mp hs with rfl | hs0
          · simp
          · exact List.mem_cons_of_mem x (ih _ keep0 fo0 heq0 s hs0)
        · exact List.mem_cons_of_mem x (ih _ keep0 fo0 heq0 s hs)

/-- Every entry of the bounds-filtered map refines an entry of the input
map with the same date key. -/
theorem mapWithinBoundsGo_mem (now : Int) (mbn : Nat) (fl : Int → Bool) (dst : Bool) :
    ∀ (m : SlotsMap) (found : Bool) (res : SlotsMap),
      mapWithinBoundsGo now mbn fl dst m found = .ok res →
      ∀ d ss, (d, ss) ∈ res → ∃ ss0, (d, ss0) ∈ m ∧ ∀ s ∈ ss, s ∈ ss0 := by
  intro m
  induction m with
  | nil =>
    intro found res h d ss hm
    simp only [mapWithinBoundsGo] at h
    injection h with h
    subst h
    simp at hm
  | cons e rest ih =>
    intro found res h d ss hm
    obtain ⟨d0, ss0⟩ := e
    simp only [mapWithinBoundsGo] at h
    split at h
    · injection h with h
      subst h
      simp at hm
    · split at h
      · exact absurd h (by simp)
      · rename_i filteredSlots found1 heqf
        split at h
        · exact absurd h (by simp)
        · rename_i tail heqt
          injection h with h
          subst h
          split at hm
          · rcases List.mem_cons.mp hm with heq | hmem
            · obtain ⟨h1, h2⟩ := Prod.mk.injEq .. ▸ heq
              subst h1
              refine ⟨ss0, by simp, fun s hs => ?_⟩
              exact filterSlotsWithinBounds_sub now mbn fl ss0 found
                filteredSlots found1 heqf s (h2 ▸ hs)
            · rcases ih found1 tail heqt d ss hmem with ⟨ssx, hssx, hsub⟩
              exact ⟨ssx, by simp [hssx], hsub⟩
          · rcases ih found1 tail heqt d ss hm with ⟨ssx, hssx, hsub⟩
            exact ⟨ssx, by simp [hssx], hsub⟩

/-- A seat-map lookup returns an entry of the list with the looked-up
start instant. -/
theorem lookupSeat_mem (cs : List SeatBooking) (t : Int) (b : SeatBooking)
    (h : lookupSeat cs t = some b) : b ∈ cs ∧ b.startTime = t := by
  unfold lookupSeat at h
  have hmem := List.mem_of_find?_eq_some h
  have hpred := List.find?_some h
  constructor
  · exact List.mem_reverse.mp hmem
  · simpa using hpred

/-- The pushed slot keeps its own instant. -/
theorem slotEntry_time (cs : List SeatBooking) (t : Int) : (slotEntry cs t).time = t := by
  unfold slotEntry
  cases lookupSeat cs t <;> rfl

/-- The pushed slot's attendee count is bounded when every seat entry at
its instant is. -/
theorem slotEntry_attendees_le (cs : List SeatBooking) (t : Int) (cap : Nat)
    (h : ∀ b ∈ cs, b.startTime = t → b.attendees ≤ cap) :
    ∀ a, (slotEntry cs t).attendees = some a → a ≤ cap := by
  intro a ha
  unfold slotEntry at ha
  cases hl : lookupSeat cs t with
  | none => rw [hl] at ha; simp at ha
  | some b =>
    rw [hl] at ha
    simp at ha
    obtain ⟨hmem, hst⟩ := lookupSeat_mem cs t b hl
    exact ha ▸ h b hmem hst

/-- Dissecting a successful run of `getAvailableSlots`: the parsed
bounds, the reserved-slot fetch and the bounds-filtered map it produced. -/
theorem getAvailableSlots_ok_elim (env : Env) (uuidGen : Nat → String) (m : SlotsMap)
    (hrun : getAvailableSlots env uuidGen = .ok m) :
    ∃ sv tv reserved,
      env.startTimeParsed = some sv ∧ env.endTimeParsed = some tv ∧
      getReservedSlotsAndCleanupExpired env.bookerClientUid env.unexpiredSlots
        env.deleteExpiredResult = .ok reserved ∧
      mapWithinBoundsSlotsToDate env.now env.minimumBookingNotice
        env.isTimeViolatingFutureLimit env.doesStartFromToday
        (mapSlotsToDate env.timeZoneOffset env.onlyShowFirstAvailableSlot
          ((seatsBlock uuidGen env.eventTypeId env.eventLength env.seatsPerTimeSlot
             env.currentSeats reserved
             (env.getSlotsOracle (computeWithFallback env.now env.minimumBookingNotice
               env.qualifiedRRHostsLen env.allFallbackRRHostsLen env.avail
               (getStartTime env.now env.minimumBookingNotice sv) tv).2)).1.getD [])
          ((seatsBlock uuidGen env.eventTypeId env.eventLength env.seatsPerTimeSlot
             env.currentSeats reserved
             (env.getSlotsOracle (computeWithFallback env.now env.minimumBookingNotice
               env.qualifiedRRHostsLen env.allFallbackRRHostsLen env.avail
               (getStartTime env.now env.minimumBookingNotice sv) tv).2)).2))
        = .ok m := by
  cases hstp : env.startTimeParsed with
  | none =>
    unfold getAvailableSlots at hrun
    simp only [hstp] at hrun
    exact absurd hrun (by simp)
  | some sv =>
    cases hetp : env.endTimeParsed with
    | none =>
      unfold getAvailableSlots at hrun
      simp only [hstp, hetp] at hrun
      exact absurd hrun (by simp)
    | some tv =>
      unfold getAvailableSlots at hrun
      simp only [hstp, hetp] at hrun
      split at hrun
      · simp at hrun
      · rename_i reserved hres
        split at hrun
        · simp at hrun
        · rename_i w hmw
          split at hrun
          · rename_i e hne
            rw [notificationStep_ok] at hne
            simp at hne
          · injection hrun with hrun
            exact ⟨sv, tv, reserved, rfl, rfl, hres, hrun ▸ hmw⟩

/-- C6: every slot emitted by `_getAvailableSlots` is grouped under the
date key obtained by rendering the slot's own UTC instant in the
requested booker timezone — converting the slot's time back into the
booker timezone yields its date key. -/
theorem roundTripDateGrouping (env : Env) (uuidGen : Nat → String) (m : SlotsMap)
    (hrun : getAvailableSlots env uuidGen = .ok m) :
    slotsOnOwnDateKey env.timeZoneOffset m = true := by
  obtain ⟨sv, tv, reserved, hs, ht, hres, hmw⟩ := getAvailableSlots_ok_elim env uuidGen m hrun
  unfold mapWithinBoundsSlotsToDate at hmw
  have hchar := mapSlotsToDate_mem env.timeZoneOffset env.onlyShowFirstAvailableSlot
    ((seatsBlock uuidGen env.eventTypeId env.eventLength env.seatsPerTimeSlot
       env.currentSeats reserved
       (env.getSlotsOracle (computeWithFallback env.now env.minimumBookingNotice
         env.qualifiedRRHostsLen env.allFallbackRRHostsLen env.avail
         (getStartTime env.now env.minimumBookingNotice sv) tv).2)).1.getD [])
    (fun s d => d = formatDateKey env.timeZoneOffset s.time)
    ((seatsBlock uuidGen env.eventTypeId env.eventLength env.seatsPerTimeSlot
       env.currentSeats reserved
       (env.getSlotsOracle (computeWithFallback env.now env.minimumBookingNotice
         env.qualifiedRRHostsLen env.allFallbackRRHostsLen env.avail
         (getStartTime env.now env.minimumBookingNotice sv) tv).2)).2)
    [] (by intro d ss hm; simp at hm)
    (by intro slot _; rw [slotEntry_time])
  unfold slotsOnOwnDateKey
  rw [List.all_eq_true]
  intro p hp
  obtain ⟨d, ss⟩ := p
  rw [List.all_eq_true]
  intro s hsmem
  simp only [decide_eq_true_eq]
  obtain ⟨ss0, hss0, hsub⟩ := mapWithinBoundsGo_mem env.now env.minimumBookingNotice
    env.isTimeViolatingFutureLimit env.doesStartFromToday _ false m hmw d ss hp
  exact (hchar d ss0 hss0 s (hsub s hsmem)).symm

/-- A slot that survives the conflict filter has every seat entry at its
instant strictly below capacity. -/
theorem conflictFilter_capacity (el : Nat) (cap : Nat) (busy : List (Int × Int))
    (cs : Option (List SeatBooking)) (slots : List Slot) (slot : Slot)
    (hslot : slot ∈ slots.filter
      (fun s => !(checkForConflicts s.time el busy cs (some cap)))) :
    ∀ b ∈ cs.getD [], b.startTime = slot.time → b.attendees < cap := by
  intro b hb hbt
  have hpred := List.of_mem_filter hslot
  cases cs with
  | none => simp at hb
  | some cs2 =>
    simp only [checkForConflicts, Bool.not_eq_true', Bool.or_eq_false_iff] at hpred
    have h1 := hpred.1
    rw [List.any_eq_false] at h1
    have h2 := h1 b (by simpa using hb)
    simp [hbt] at h2
    omega

/-- The two branches of the reserved-slot seat-accounting block. -/
theorem seatsBlock_eq (g : Nat → String) (etid el : Nat) (seats : Option Nat)
    (cs0 : Option (List SeatBooking)) (reserved : List ReservedSlot) (ts : List Slot) :
    (0 < reserved.length ∧ (seatsBlock g etid el seats cs0 reserved ts).2
       = ts.filter (fun slot => !(checkForConflicts slot.time el
           (reserved.filterMap (fun c => if c.isSeat then none
             else some (c.slotUtcStartDate, c.slotUtcEndDate)))
           (seatsBlock g etid el seats cs0 reserved ts).1 seats)))
    ∨ (¬ 0 < reserved.length ∧ seatsBlock g etid el seats cs0 reserved ts = (cs0, ts)) := by
  by_cases hr : 0 < reserved.length
  · refine Or.inl ⟨hr, ?_⟩
    simp only [seatsBlock, if_pos hr]
  · refine Or.inr ⟨hr, ?_⟩
    simp only [seatsBlock, if_neg hr]

/-- C1: with a capacity-respecting confirmed-seat snapshot, every slot in
the returned map that carries an `attendees` count respects
`seatsPerTimeSlot`; moreover, whenever reserved slots are present, every
slot surviving the seat-accounting block has all its (reservation-
adjusted) seat entries strictly below capacity — over-capacity slots are
removed before the map is built. -/
theorem seatCapacityInvariant (env : Env) (uuidGen : Nat → String) (cap : Nat) (m : SlotsMap)
    (hseats : env.seatsPerTimeSlot = some cap)
    (hsnapshot : ((env.currentSeats.getD []).all (fun b => b.attendees ≤ cap)) = true)
    (hrun : getAvailableSlots env uuidGen = .ok m) :
    allSlotsWithinCap cap m = true ∧
    (∀ (reservedSlots : List ReservedSlot) (availableTimeSlots : List Slot)
       (currentSeats0 : Option (List SeatBooking)) (s : Slot),
       reservedSlots ≠ [] →
       s ∈ (seatsBlock uuidGen env.eventTypeId env.eventLength (some cap) currentSeats0
              reservedSlots availableTimeSlots).2 →
       ((seatsBlock uuidGen env.eventTypeId env.eventLength (some cap) currentSeats0
          reservedSlots availableTimeSlots).1.getD []).all
         (fun b => !(decide (b.startTime = s.time)) || decide (b.attendees < cap)) = true) := by
  constructor
  · obtain ⟨sv, tv, reserved, hs, ht, hres, hmw⟩ := getAvailableSlots_ok_elim env uuidGen m hrun
    rw [hseats] at hmw
    unfold mapWithinBoundsSlotsToDate at hmw
    rw [List.all_eq_true] at hsnapshot
    have hchar := mapSlotsToDate_mem env.timeZoneOffset env.onlyShowFirstAvailableSlot
      ((seatsBlock uuidGen env.eventTypeId env.eventLength (some cap)
         env.currentSeats reserved
         (env.getSlotsOracle (computeWithFallback env.now env.minimumBookingNotice
           env.qualifiedRRHostsLen env.allFallbackRRHostsLen env.avail
           (getStartTime env.now env.minimumBookingNotice sv) tv).2)).1.getD [])
      (fun s _ => ∀ a, s.attendees = some a → a ≤ cap)
      ((seatsBlock uuidGen env.eventTypeId env.eventLength (some cap)
         env.currentSeats reserved
         (env.getSlotsOracle (computeWithFallback env.now env.minimumBookingNotice
           env.qualifiedRRHostsLen env.allFallbackRRHostsLen env.avail
           (getStartTime env.now env.minimumBookingNotice sv) tv).2)).2)
      [] (by intro d ss hm; simp at hm)
      (by
        intro slot hslot
        apply slotEntry_attendees_le
        intro b hb hbt
        rcases seatsBlock_eq uuidGen env.eventTypeId env.eventLength (some cap)
            env.currentSeats reserved
            (env.getSlotsOracle (computeWithFallback env.now env.minimumBookingNotice
              env.qualifiedRRHostsLen env.allFallbackRRHostsLen env.avail
              (getStartTime env.now env.minimumBookingNotice sv) tv).2)
          with ⟨hr, heq2⟩ | ⟨hr, heq⟩
        · rw [heq2] at hslot
          exact le_of_lt (conflictFilter_capacity env.eventLength cap _ _ _ slot hslot b hb hbt)
        · rw [heq] at hslot hb
          exact of_decide_eq_true (hsnapshot b (by simpa using hb)))
    unfold allSlotsWithinCap
    rw [List.all_eq_true]
    intro p hp
    obtain ⟨d, ss⟩ := p
    rw [List.all_eq_true]
    intro s hsmem
    obtain ⟨ss0, hss0, hsub⟩ := mapWithinBoundsGo_mem env.now env.minimumBookingNotice
      env.isTimeViolatingFutureLimit env.doesStartFromToday _ false m hmw d ss hp
    have hok := hchar d ss0 hss0 s (hsub s hsmem)
    cases ha : s.attendees with
    | none => simp [Option.all]
    | some a =>
      simp only [Option.all, decide_eq_true_eq]
      exact hok a ha
  · intro reservedSlots availableTimeSlots currentSeats0 s hne hs
    have hr : 0 < reservedSlots.length := by
      cases reservedSlots with
      | nil => exact absurd rfl hne
      | cons a l => simp
    rcases seatsBlock_eq uuidGen env.eventTypeId env.eventLength (some cap)
        currentSeats0 reservedSlots availableTimeSlots with ⟨_, heq2⟩ | ⟨hnr, _⟩
    · rw [heq2] at hs
      rw [List.all_eq_true]
      intro b hb
      have hcapb := conflictFilter_capacity env.eventLength cap _ _ _ s hs b hb
      by_cases hbt : b.startTime = s.time
      · simp [hbt, hcapb hbt]
      · simp [hbt]
    · exact absurd hr hnr

/-- C6 witness: the grouping invariant evaluated on a concrete UTC-5 run
with two slots. -/
theorem roundTripDateGroupingWitness :
    slotsOnOwnDateKey envDateKey.timeZoneOffset
      [(0, [⟨86400000, none, none⟩, ⟨90000000, none, none⟩])] = true :=
  roundTripDateGrouping envDateKey uuidSupplyA
    [(0, [⟨86400000, none, none⟩, ⟨90000000, none, none⟩])] rfl

/-- C1 witness: the capacity invariant evaluated on a concrete 2-seat
event, and the removal clause on a concrete reserved-seat hold. -/
theorem seatCapacityWitness :
    allSlotsWithinCap 2 [(1, [⟨86400000, some 1, some "bk1"⟩])] = true ∧
    ((seatsBlock uuidSupplyA envSeatCap.eventTypeId envSeatCap.eventLength (some 2)
        (some []) [⟨"other", 86400000, 88200000, true, 1⟩] [⟨86400000⟩]).1.getD []).all
      (fun b => !(decide (b.startTime = (⟨86400000⟩ : Slot).time))
        || decide (b.attendees < 2)) = true :=
  ⟨(seatCapacityInvariant envSeatCap uuidSupplyA 2 [(1, [⟨86400000, some 1, some "bk1"⟩])]
      rfl (by decide) rfl).1,
   (seatCapacityInvariant envSeatCap uuidSupplyA 2 [(1, [⟨86400000, some 1, some "bk1"⟩])]
      rfl (by decide) rfl).2 [⟨"other", 86400000, 88200000, true, 1⟩] [⟨86400000⟩]
      (some []) ⟨86400000⟩ (by decide) (by decide)⟩

/-- A present key has a nonempty group under the groups-nonempty
invariant. -/
theorem hasKey_true_getKey (m : SlotsMap) (k : Int)
    (hinv : ∀ p ∈ m, 0 < p.2.length) (h : hasKey m k = true) :
    0 < (getKey m k).length := by
  unfold hasKey at h
  rw [List.any_eq_true] at h
  obtain ⟨p, hp, hpk⟩ := h
  have : (m.find? (fun p => p.1 = k)).isSome := by
    rw [List.find?_isSome]
    exact ⟨p, hp, hpk⟩
  unfold getKey
  cases hf : m.find? (fun p => p.1 = k) with
  | none => rw [hf] at this; simp at this
  | some q => exact hinv q (List.mem_of_find?_eq_some hf)

/-- Pushing onto a freshly created key touches only that key. -/
theorem pushKey_append_fresh (r : SlotsMap) (k : Int) (v : OutSlot)
    (h : hasKey r k = false) :
    pushKey (r ++ [(k, [])]) k v = r ++ [(k, [v])] := by
  unfold pushKey
  rw [List.map_append]
  unfold hasKey at h
  rw [List.any_eq_false] at h
  congr 1
  · have hpt : ∀ p ∈ r, (if p.1 = k then (p.1, p.2 ++ [v]) else p) = p := by
      intro p hp
      rw [if_neg]
      intro hk
      exact h p hp (by simpa using hk)
    rw [List.map_congr_left hpt]
    simp
  · simp

/-- `find?` skips a prefix on which the predicate fails. -/
theorem find?_append_left_none {α} (p : α → Bool) :
    ∀ (l1 l2 : List α), (∀ x ∈ l1, ¬ p x = true) →
      (l1 ++ l2).find? p = l2.find? p := by
  intro l1
  induction l1 with
  | nil => intro l2 _; rfl
  | cons a t ih =>
    intro l2 h
    rw [List.cons_append, List.find?_cons_of_neg]
    · exact ih l2 (fun x hx => h x (by simp [hx]))
    · exact h a (by simp)

/-- With `onlyShowFirstAvailableSlot`, a slot whose date key already has
a (nonempty) group is dropped. -/
theorem mapSlotsToDateStep_existing (tz : Int → Int) (cs : List SeatBooking)
    (r : SlotsMap) (slot : Slot)
    (hinv : ∀ p ∈ r, 0 < p.2.length)
    (h : hasKey r (formatDateKey tz slot.time) = true) :
    mapSlotsToDateStep tz true cs r slot = r := by
  unfold mapSlotsToDateStep
  have he : ensureKey r (formatDateKey tz slot.time) = r := by
    unfold ensureKey
    rw [if_pos h]
  simp only [he, Bool.true_and]
  rw [if_pos (decide_eq_true (hasKey_true_getKey r _ hinv h))]

/-- With `onlyShowFirstAvailableSlot`, a slot with a fresh date key opens
a singleton group. -/
theorem mapSlotsToDateStep_fresh (tz : Int → Int) (cs : List SeatBooking)
    (r : SlotsMap) (slot : Slot)
    (h : hasKey r (formatDateKey tz slot.time) = false) :
    mapSlotsToDateStep tz true cs r slot
      = r ++ [(formatDateKey tz slot.time, [slotEntry cs slot.time])] := by
  unfold mapSlotsToDateStep
  have he : ensureKey r (formatDateKey tz slot.time)
      = r ++ [(formatDateKey tz slot.time, [])] := by
    unfold ensureKey
    rw [if_neg (by simp [h])]
  simp only [he, Bool.true_and]
  have hfil : ∀ x ∈ r, ¬ (fun p => decide (p.1 = formatDateKey tz slot.time)) x = true := by
    unfold hasKey at h
    rw [List.any_eq_false] at h
    exact h
  have hg : getKey (r ++ [(formatDateKey tz slot.time, [])]) (formatDateKey tz slot.time)
      = [] := by
    unfold getKey
    rw [find?_append_left_none _ r _ hfil]
    simp
  rw [hg]
  simp only [List.length_nil, decide_eq_true_eq]
  rw [if_neg (by omega)]
  exact pushKey_append_fresh r (formatDateKey tz slot.time) (slotEntry cs slot.time) h

/-- With `onlyShowFirstAvailableSlot`, every group of the built map is
the singleton of the first input slot carrying its date key. -/
theorem mapSlotsToDate_first_go (tz : Int → Int) (cs : List SeatBooking) :
    ∀ (slots : List Slot) (r : SlotsMap),
      (∀ p ∈ r, 0 < p.2.length) →
      ∀ d ss, (d, ss) ∈ slots.foldl (mapSlotsToDateStep tz true cs) r →
        (d, ss) ∈ r ∨ (hasKey r d = false ∧
          ∃ slot, slots.find? (fun x => formatDateKey tz x.time = d) = some slot ∧
            ss = [slotEntry cs slot.time]) := by
  intro slots
  induction slots with
  | nil =>
    intro r hinv d ss hm
    exact Or.inl hm
  | cons slot rest ih =>
    intro r hinv d ss hm
    rw [List.foldl_cons] at hm
    cases hk : hasKey r (formatDateKey tz slot.time) with
    | true =>
      rw [mapSlotsToDateStep_existing tz cs r slot hinv hk] at hm
      rcases ih r hinv d ss hm with h | ⟨hnk, slot2, hfind, hss⟩
      · exact Or.inl h
      · refine Or.inr ⟨hnk, slot2, ?_, hss⟩
        rw [List.find?_cons_of_neg]
        · exact hfind
        · simp only [decide_eq_true_eq]
          intro hkey
          rw [hkey] at hk
          rw [hk] at hnk
          exact Bool.true_eq_false ▸ hnk
    | false =>
      rw [mapSlotsToDateStep_fresh tz cs r slot hk] at hm
      have hinv2 : ∀ p ∈ r ++ [(formatDateKey tz slot.time, [slotEntry cs slot.time])],
          0 < p.2.length := by
        intro p hp
        rcases List.mem_append.mp hp with h1 | h2
        · exact hinv p h1
        · simp at h2
          rw [h2]
          simp
      rcases ih _ hinv2 d ss hm with h | ⟨hnk, slot2, hfind, hss⟩
      · rcases List.mem_append.mp h with h1 | h2
        · exact Or.inl h1
        · simp only [List.mem_singleton] at h2
          obtain ⟨h3, h4⟩ := Prod.mk.injEq .. ▸ h2
          refine Or.inr ⟨h3 ▸ hk, slot, ?_, h4⟩
          rw [List.find?_cons_of_pos]
          simp only [decide_eq_true_eq]
          exact h3.symm
      · have hnk1 : hasKey r d = false := by
          unfold hasKey at hnk ⊢
          rw [List.any_eq_false] at hnk
          rw [List.any_eq_false]
          intro p hp
          exact hnk p (by simp [hp])
        have hdk : ¬ d = formatDateKey tz slot.time := by
          intro hdd
          unfold hasKey at hnk
          rw [List.any_eq_false] at hnk
          exact hnk (formatDateKey tz slot.time, [slotEntry cs slot.time])
            (by simp) (by simp [hdd])
        refine Or.inr ⟨hnk1, slot2, ?_, hss⟩
        rw [List.find?_cons_of_neg]
        · exact hfind
        · simp only [decide_eq_true_eq]
          intro hkey
          exact hdk hkey.symm

/-- The first slot matching a date key is the earliest among ascending
slots. -/
theorem find?_min_time (tz : Int → Int) (d : Int) :
    ∀ (slots : List Slot), slots.Pairwise (fun a b => a.time ≤ b.time) →
      ∀ slot, slots.find? (fun x => formatDateKey tz x.time = d) = some slot →
      ∀ other ∈ slots, formatDateKey tz other.time = d → slot.time ≤ other.time := by
  intro slots
  induction slots with
  | nil =>
    intro _ slot h
    simp at h
  | cons x rest ih =>
    intro hp slot hfind other hother hkey
    obtain ⟨hhead, htail⟩ := List.pairwise_cons.mp hp
    by_cases hx : formatDateKey tz x.time = d
    · rw [List.find?_cons_of_pos _ (by simp [hx])] at hfind
      injection hfind with hfind
      subst hfind
      rcases List.mem_cons.mp hother with rfl | h2
      · exact le_refl _
      · exact hhead other h2
    · rw [List.find?_cons_of_neg _ (by simp [hx])] at hfind
      rcases List.mem_cons.mp hother with rfl | h2
      · exact absurd hkey hx
      · exact ih htail slot hfind other h2 hkey

/-- C10: with `onlyShowFirstAvailableSlot` set and the surviving slots in
ascending time order (as `getSlots` produces them), every date key of the
map built by `_mapSlotsToDate` holds exactly one slot — the entry of the
earliest surviving slot on that booker-local date — and every later slot
of the same date is dropped. -/
theorem onlyShowFirstKeepsEarliest (tz : Int → Int) (cs : List SeatBooking)
    (slots : List Slot)
    (hsorted : slots.Pairwise (fun a b => a.time ≤ b.time)) :
    ∀ d ss, (d, ss) ∈ mapSlotsToDate tz true cs slots →
      ∃ slot ∈ slots, ss = [slotEntry cs slot.time] ∧
        formatDateKey tz slot.time = d ∧
        ∀ other ∈ slots, formatDateKey tz other.time = d → slot.time ≤ other.time := by
  intro d ss hm
  rcases mapSlotsToDate_first_go tz cs slots [] (by simp) d ss hm with h | ⟨_, slot, hfind, hss⟩
  · simp at h
  · have hmem := List.mem_of_find?_eq_some hfind
    have hpred := List.find?_some hfind
    simp only [decide_eq_true_eq] at hpred
    exact ⟨slot, hmem, hss, hpred, find?_min_time tz d slots hsorted slot hfind⟩

/-- C10 witness: two ascending same-date slots collapse to the singleton
of the earlier one. -/
theorem onlyShowFirstKeepsEarliestWitness :
    ∃ slot ∈ ([⟨100⟩, ⟨200⟩] : List Slot),
      [(⟨100, none, none⟩ : OutSlot)] = [slotEntry [] slot.time] ∧
      formatDateKey (fun _ => 0) slot.time = 0 ∧
      ∀ other ∈ ([⟨100⟩, ⟨200⟩] : List Slot),
        formatDateKey (fun _ => 0) other.time = 0 → slot.time ≤ other.time :=
  onlyShowFirstKeepsEarliest (fun _ => 0) [] [⟨100⟩, ⟨200⟩] (by decide) 0
    [⟨100, none, none⟩] (by decide)

theorem stripOutSlot_time (snap : List Int) (s : OutSlot) :
    (stripOutSlot snap s).time = s.time := by
  unfold stripOutSlot
  split <;> rfl

theorem find?_map_eq {α β : Type} (f : α → β) (p : β → Bool) :
    ∀ (l1 l2 : List α), l1.map f = l2.map f →
      (l1.find? (fun a => p (f a))).map f = (l2.find? (fun a => p (f a))).map f := by
  intro l1
  induction l1 with
  | nil =>
    intro l2 h
    cases l2 with
    | nil => rfl
    | cons b t2 => simp at h
  | cons a t ih =>
    intro l2 h
    cases l2 with
    | nil => simp at h
    | cons b t2 =>
      simp only [List.map_cons, List.cons.injEq] at h
      obtain ⟨hab, ht⟩ := h
      by_cases hp : p (f a) = true
      · have e1 : (a :: t).find? (fun x => p (f x)) = some a :=
          List.find?_cons_of_pos t hp
        have e2 : (b :: t2).find? (fun x => p (f x)) = some b :=
          List.find?_cons_of_pos t2 (hab ▸ hp)
        rw [e1, e2]
        simp [hab]
      · have e1 : (a :: t).find? (fun x => p (f x)) = t.find? (fun x => p (f x)) :=
          List.find?_cons_of_neg t hp
        have e2 : (b :: t2).find? (fun x => p (f x)) = t2.find? (fun x => p (f x)) :=
          List.find?_cons_of_neg t2 (hab ▸ hp)
        rw [e1, e2]
        exact ih t2 ht

theorem lookupSeat_map_seatKey (t : Int) (cs1 cs2 : List SeatBooking)
    (h : cs1.map seatKey = cs2.map seatKey) :
    (lookupSeat cs1 t).map seatKey = (lookupSeat cs2 t).map seatKey := by
  unfold lookupSeat
  have hrev : cs1.reverse.map seatKey = cs2.reverse.map seatKey := by
    rw [List.map_reverse, List.map_reverse, h]
  have hfun : ∀ (cs : List SeatBooking),
      (cs.find? (fun booking => booking.startTime = t))
        = (cs.find? (fun booking => decide ((seatKey booking).1 = t))) := by
    intro cs
    rfl
  rw [hfun, hfun]
  exact find?_map_eq seatKey (fun pr => decide (pr.1 = t)) cs1.reverse cs2.reverse hrev

theorem any_map_general {α β : Type} (f : α → β) (p : β → Bool) :
    ∀ l : List α, (l.map f).any p = l.any (fun a => p (f a)) := by
  intro l
  induction l with
  | nil => rfl
  | cons a t ih => simp [List.any_cons, ih]

theorem checkForConflicts_congr (t : Int) (el : Nat) (busy : List (Int × Int))
    (seats : Option Nat) (cs1 cs2 : List SeatBooking)
    (h : cs1.map seatKey = cs2.map seatKey) :
    checkForConflicts t el busy (some cs1) seats
      = checkForConflicts t el busy (some cs2) seats := by
  cases seats with
  | none => rfl
  | some cap =>
    have hfun : ∀ (cs : List SeatBooking),
        (cs.any (fun booking => booking.startTime = t && cap ≤ booking.attendees))
          = ((cs.map seatKey).any (fun pr => pr.1 = t && cap ≤ pr.2)) := by
      intro cs
      rw [any_map_general seatKey (fun pr => pr.1 = t && cap ≤ pr.2) cs]
      rfl
    simp only [checkForConflicts]
    rw [hfun, hfun, h]

theorem applyOccupied_map_seatKey (g1 g2 : Nat → String) (cs : List SeatBooking)
    (occ : List ReservedSlot) :
    (applyOccupiedSeatsToCurrentSeats g1 cs occ).map seatKey
      = (applyOccupiedSeatsToCurrentSeats g2 cs occ).map seatKey := by
  unfold applyOccupiedSeatsToCurrentSeats
  rw [List.map_append, List.map_append, List.map_map, List.map_map]
  congr 1

theorem mapKeysInOrder_subset :
    ∀ (l acc : List Int) (x : Int),
      x ∈ l.foldl (fun ks k => if ks.contains k then ks else ks ++ [k]) acc →
      x ∈ acc ∨ x ∈ l := by
  intro l
  induction l with
  | nil =>
    intro acc x h
    exact Or.inl h
  | cons k t ih =>
    intro acc x h
    rw [List.foldl_cons] at h
    rcases ih _ x h with h1 | h2
    · by_cases hc : acc.contains k = true
      · rw [if_pos hc] at h1
        exact Or.inl h1
      · rw [if_neg hc] at h1
        rcases List.mem_append.mp h1 with ha | hk
        · exact Or.inl ha
        · simp at hk
          simp [hk]
    · simp [h2]

theorem applyOccupied_lookup_fresh (g : Nat → String) (cs : List SeatBooking)
    (occ : List ReservedSlot) (t : Int)
    (h : ∀ o ∈ occ, o.slotUtcStartDate ≠ t) :
    lookupSeat (applyOccupiedSeatsToCurrentSeats g cs occ) t = lookupSeat cs t := by
  unfold applyOccupiedSeatsToCurrentSeats lookupSeat
  rw [List.reverse_append]
  apply find?_append_left_none
  intro b hb
  simp only [List.mem_reverse, List.mem_map] at hb
  obtain ⟨pr, hpr, hb2⟩ := hb
  have hkey : pr.2 ∈ mapKeysInOrder (occ.map (fun item => item.slotUtcStartDate)) :=
    List.snd_mem_of_mem_enum hpr
  unfold mapKeysInOrder at hkey
  rcases mapKeysInOrder_subset (occ.map (fun item => item.slotUtcStartDate)) [] pr.2 hkey
    with habs | hmem
  · simp at habs
  · obtain ⟨o, ho, hot⟩ := List.mem_map.mp hmem
    have hne : pr.2 ≠ t := hot ▸ h o ho
    rw [← hb2]
    simp [hne]

theorem seatsBlock_uuid_congr (g1 g2 : Nat → String) (etid el : Nat) (seats : Option Nat)
    (cs0 : Option (List SeatBooking)) (reserved : List ReservedSlot) (ts : List Slot) :
    ((seatsBlock g1 etid el seats cs0 reserved ts).1.getD []).map seatKey
      = ((seatsBlock g2 etid el seats cs0 reserved ts).1.getD []).map seatKey ∧
    (seatsBlock g1 etid el seats cs0 reserved ts).2
      = (seatsBlock g2 etid el seats cs0 reserved ts).2 ∧
    (∀ t ∈ snapshotSeatTimes cs0,
      lookupSeat ((seatsBlock g1 etid el seats cs0 reserved ts).1.getD []) t
        = lookupSeat ((seatsBlock g2 etid el seats cs0 reserved ts).1.getD []) t) := by
  by_cases hr : 0 < reserved.length
  case neg =>
    simp only [seatsBlock, if_neg hr]
    exact ⟨trivial, trivial, fun t _ => trivial⟩
  case pos =>
    by_cases hocc : 0 < (reserved.filter
        (fun item => item.isSeat && item.eventTypeId = etid)).length
    case neg =>
      simp only [seatsBlock, if_pos hr, if_neg hocc]
      exact ⟨trivial, trivial, fun t _ => trivial⟩
    case pos =>
      cases cs0 with
      | none =>
        simp only [seatsBlock, if_pos hr, if_pos hocc, snapshotSeatTimes]
        have hmapkey := applyOccupied_map_seatKey g1 g2 []
          (reserved.filter (fun item => item.isSeat && item.eventTypeId = etid))
        refine ⟨by simpa using hmapkey, ?_, by intro t ht; simp at ht⟩
        apply List.filter_congr
        intro slot _
        have := checkForConflicts_congr slot.time el
          (reserved.filterMap (fun c =>
            if c.isSeat then none else some (c.slotUtcStartDate, c.slotUtcEndDate)))
          seats
          (applyOccupiedSeatsToCurrentSeats g1 []
            (reserved.filter (fun item => item.isSeat && item.eventTypeId = etid)))
          (applyOccupiedSeatsToCurrentSeats g2 []
            (reserved.filter (fun item => item.isSeat && item.eventTypeId = etid)))
          hmapkey
        rw [this]
      | some cs =>
        simp only [seatsBlock, if_pos hr, if_pos hocc, snapshotSeatTimes]
        have hmapkey := applyOccupied_map_seatKey g1 g2
          (cs.map (fun item =>
            { item with attendees := item.attendees + ((reserved.filter
                (fun item => item.isSeat && item.eventTypeId = etid)).filter
                (fun seat => seat.slotUtcStartDate = item.startTime)).length }))
          ((reserved.filter (fun item => item.isSeat && item.eventTypeId = etid)).filter
            (fun item => !(((cs.filter (fun item => 0 < ((reserved.filter
                (fun item => item.isSeat && item.eventTypeId = etid)).filter
                (fun seat => seat.slotUtcStartDate = item.startTime)).length)).map
                (fun item => item.startTime)).contains item.slotUtcStartDate)))
        refine ⟨by simpa using hmapkey, ?_, ?_⟩
        · apply List.filter_congr
          intro slot _
          have := checkForConflicts_congr slot.time el
            (reserved.filterMap (fun c =>
              if c.isSeat then none else some (c.slotUtcStartDate, c.slotUtcEndDate)))
            seats _ _ hmapkey
          rw [this]
        · intro t ht
          simp only [Option.getD_some]
          have hdisj : ∀ o ∈ ((reserved.filter
              (fun item => item.isSeat && item.eventTypeId = etid)).filter
              (fun item => !(((cs.filter (fun item => 0 < ((reserved.filter
                  (fun item => item.isSeat && item.eventTypeId = etid)).filter
                  (fun seat => seat.slotUtcStartDate = item.startTime)).length)).map
                  (fun item => item.startTime)).contains item.slotUtcStartDate))),
              o.slotUtcStartDate ≠ t := by
            intro o ho hot
            have hmem := List.mem_of_mem_filter ho
            have hpred := List.of_mem_filter ho
            simp only [Bool.not_eq_true', List.contains_eq_any_beq, List.any_eq_false] at hpred
            simp only [Option.getD_some] at ht
            obtain ⟨item, hitem, hitemt⟩ := List.mem_map.mp ht
            have : item ∈ cs.filter (fun item => 0 < ((reserved.filter
                (fun item => item.isSeat && item.eventTypeId = etid)).filter
                (fun seat => seat.slotUtcStartDate = item.startTime)).length) := by
              apply List.mem_filter.mpr
              refine ⟨hitem, ?_⟩
              simp only [decide_eq_true_eq]
              have : o ∈ (reserved.filter
                  (fun item => item.isSeat && item.eventTypeId = etid)).filter
                  (fun seat => seat.slotUtcStartDate = item.startTime) := by
                apply List.mem_filter.mpr
                exact ⟨hmem, by simp [hot, hitemt]⟩
              cases hfl : ((reserved.filter
                  (fun item => item.isSeat && item.eventTypeId = etid)).filter
                  (fun seat => seat.slotUtcStartDate = item.startTime)) with
              | nil => rw [hfl] at this; simp at this
              | cons a l => simp
            have habs := hpred item.startTime (List.mem_map.mpr ⟨item, this, rfl⟩)
            rw [hitemt, ← hot] at habs
            simp at habs
          rw [applyOccupied_lookup_fresh g1 _ _ t hdisj,
            applyOccupied_lookup_fresh g2 _ _ t hdisj]

theorem slotEntry_congr_strip (snap : List Int) (cs1 cs2 : List SeatBooking) (t : Int)
    (hkey : cs1.map seatKey = cs2.map seatKey)
    (hsnap : snap.contains t = true → lookupSeat cs1 t = lookupSeat cs2 t) :
    stripOutSlot snap (slotEntry cs1 t) = stripOutSlot snap (slotEntry cs2 t) := by
  by_cases hc : snap.contains t = true
  · unfold slotEntry
    rw [hsnap hc]
  · have hl := lookupSeat_map_seatKey t cs1 cs2 hkey
    cases h1 : lookupSeat cs1 t with
    | none =>
      cases h2 : lookupSeat cs2 t with
      | none =>
        unfold slotEntry
        rw [h1, h2]
      | some b =>
        rw [h1, h2] at hl
        simp at hl
    | some b1 =>
      cases h2 : lookupSeat cs2 t with
      | none =>
        rw [h1, h2] at hl
        simp at hl
      | some b2 =>
        rw [h1, h2] at hl
        simp only [Option.map_some'] at hl
        injection hl with hl
        have hatt : b1.attendees = b2.attendees := congrArg Prod.snd hl
        unfold slotEntry
        rw [h1, h2]
        have hm : t ∉ snap := by
          simpa using hc
        unfold stripOutSlot
        simp [hm, hatt]

theorem stripFreshUids_hasKey (snap : List Int) (m : SlotsMap) (k : Int) :
    hasKey (stripFreshUids snap m) k = hasKey m k := by
  unfold hasKey stripFreshUids
  rw [any_map_general]

theorem stripFreshUids_ensureKey (snap : List Int) (m : SlotsMap) (k : Int) :
    stripFreshUids snap (ensureKey m k) = ensureKey (stripFreshUids snap m) k := by
  unfold ensureKey
  rw [stripFreshUids_hasKey]
  by_cases h : hasKey m k = true
  · rw [if_pos h, if_pos h]
  · rw [if_neg h, if_neg h]
    unfold stripFreshUids
    rw [List.map_append]
    rfl

theorem stripFreshUids_pushKey (snap : List Int) (m : SlotsMap) (k : Int) (v : OutSlot) :
    stripFreshUids snap (pushKey m k v)
      = pushKey (stripFreshUids snap m) k (stripOutSlot snap v) := by
  unfold pushKey stripFreshUids
  rw [List.map_map, List.map_map]
  apply List.map_congr_left
  intro p _
  by_cases hk : p.1 = k
  · simp [hk]
  · simp [hk]

theorem stripFreshUids_getKey (snap : List Int) (m : SlotsMap) (k : Int) :
    getKey (stripFreshUids snap m) k = (getKey m k).map (stripOutSlot snap) := by
  unfold getKey stripFreshUids
  rw [List.find?_map]
  have hp : ((fun p => decide (p.1 = k)) ∘
      (fun p => (p.1, p.2.map (stripOutSlot snap)))) = (fun p : Int × List OutSlot => decide (p.1 = k)) := by
    funext p
    rfl
  rw [hp]
  cases m.find? (fun p => decide (p.1 = k)) with
  | none => rfl
  | some p => rfl


theorem mapSlotsToDateStep_strip_congr (snap : List Int) (tz : Int → Int) (flag : Bool)
    (cs1 cs2 : List SeatBooking)
    (hkey : cs1.map seatKey = cs2.map seatKey)
    (hsnap : ∀ t, snap.contains t = true → lookupSeat cs1 t = lookupSeat cs2 t)
    (r1 r2 : SlotsMap) (h : stripFreshUids snap r1 = stripFreshUids snap r2) (slot : Slot) :
    stripFreshUids snap (mapSlotsToDateStep tz flag cs1 r1 slot)
      = stripFreshUids snap (mapSlotsToDateStep tz flag cs2 r2 slot) := by
  unfold mapSlotsToDateStep
  have hek : stripFreshUids snap (ensureKey r1 (formatDateKey tz slot.time))
      = stripFreshUids snap (ensureKey r2 (formatDateKey tz slot.time)) := by
    rw [stripFreshUids_ensureKey, stripFreshUids_ensureKey, h]
  have hmap : (getKey (ensureKey r1 (formatDateKey tz slot.time))
        (formatDateKey tz slot.time)).map (stripOutSlot snap)
      = (getKey (ensureKey r2 (formatDateKey tz slot.time))
        (formatDateKey tz slot.time)).map (stripOutSlot snap) := by
    rw [← stripFreshUids_getKey, ← stripFreshUids_getKey, hek]
  have hlen : (getKey (ensureKey r1 (formatDateKey tz slot.time))
        (formatDateKey tz slot.time)).length
      = (getKey (ensureKey r2 (formatDateKey tz slot.time))
        (formatDateKey tz slot.time)).length := by
    rw [← List.length_map _ (stripOutSlot snap), hmap, List.length_map]
  by_cases hc : (flag && decide (0 < (getKey (ensureKey r1 (formatDateKey tz slot.time))
      (formatDateKey tz slot.time)).length)) = true
  · rw [if_pos hc, if_pos (by rw [← hlen]; exact hc)]
    exact hek
  · rw [if_neg hc, if_neg (by rw [← hlen]; exact hc)]
    rw [stripFreshUids_pushKey, stripFreshUids_pushKey, hek,
      slotEntry_congr_strip snap cs1 cs2 slot.time hkey (hsnap slot.time)]

theorem mapSlotsToDate_strip_go (snap : List Int) (tz : Int → Int) (flag : Bool)
    (cs1 cs2 : List SeatBooking)
    (hkey : cs1.map seatKey = cs2.map seatKey)
    (hsnap : ∀ t, snap.contains t = true → lookupSeat cs1 t = lookupSeat cs2 t) :
    ∀ (slots : List Slot) (r1 r2 : SlotsMap),
      stripFreshUids snap r1 = stripFreshUids snap r2 →
      stripFreshUids snap (slots.foldl (mapSlotsToDateStep tz flag cs1) r1)
        = stripFreshUids snap (slots.foldl (mapSlotsToDateStep tz flag cs2) r2)
  | [], _, _, h => h
  | slot :: rest, r1, r2, h => by
    rw [List.foldl_cons, List.foldl_cons]
    exact mapSlotsToDate_strip_go snap tz flag cs1 cs2 hkey hsnap rest _ _
      (mapSlotsToDateStep_strip_congr snap tz flag cs1 cs2 hkey hsnap r1 r2 h slot)

theorem mapSlotsToDate_strip_congr (snap : List Int) (tz : Int → Int) (flag : Bool)
    (cs1 cs2 : List SeatBooking)
    (hkey : cs1.map seatKey = cs2.map seatKey)
    (hsnap : ∀ t, snap.contains t = true → lookupSeat cs1 t = lookupSeat cs2 t)
    (slots : List Slot) :
    stripFreshUids snap (mapSlotsToDate tz flag cs1 slots)
      = stripFreshUids snap (mapSlotsToDate tz flag cs2 slots) :=
  mapSlotsToDate_strip_go snap tz flag cs1 cs2 hkey hsnap slots [] [] rfl

theorem filterSlotsWithinBounds_strip_congr (snap : List Int) (now : Int) (mbn : Nat)
    (viol : Int → Bool) :
    ∀ (s1 s2 : List OutSlot),
      s1.map (stripOutSlot snap) = s2.map (stripOutSlot snap) →
    ∀ (found : Bool),
      (filterSlotsWithinBounds now mbn viol s1 found).map
          (fun p => (p.1.map (stripOutSlot snap), p.2))
        = (filterSlotsWithinBounds now mbn viol s2 found).map
          (fun p => (p.1.map (stripOutSlot snap), p.2))
  | [], s2, h, found => by
    cases s2 with
    | nil => rfl
    | cons b t2 => simp at h
  | a :: t1, s2, h, found => by
    cases s2 with
    | nil => simp at h
    | cons b t2 =>
      simp only [List.map_cons, List.cons.injEq] at h
      obtain ⟨h1, h2⟩ := h
      have ht : a.time = b.time := by
        rw [← stripOutSlot_time snap a, ← stripOutSlot_time snap b, h1]
      simp only [filterSlotsWithinBounds, ht]
      cases ho : isTimeOutOfBoundsChecked now mbn b.time with
      | error e => rfl
      | ok o =>
        have ih := filterSlotsWithinBounds_strip_congr snap now mbn viol t1 t2 h2
          (found || viol b.time)
        cases hr1 : filterSlotsWithinBounds now mbn viol t1 (found || viol b.time) with
        | error e1 =>
          cases hr2 : filterSlotsWithinBounds now mbn viol t2 (found || viol b.time) with
          | error e2 =>
            rw [hr1, hr2] at ih
            simp only [Except.map] at ih
            injection ih with ih
            rw [ih]
          | ok p2 =>
            rw [hr1, hr2] at ih
            simp [Except.map] at ih
        | ok p1 =>
          cases hr2 : filterSlotsWithinBounds now mbn viol t2 (found || viol b.time) with
          | error e2 =>
            rw [hr1, hr2] at ih
            simp [Except.map] at ih
          | ok p2 =>
            rw [hr1, hr2] at ih
            simp only [Except.map] at ih
            injection ih with ih
            obtain ⟨k1, f1⟩ := p1
            obtain ⟨k2, f2⟩ := p2
            simp only [Prod.mk.injEq] at ih
            obtain ⟨hk, hf⟩ := ih
            by_cases hcond : (!viol b.time && !o) = true
            · simp only [if_pos hcond, Except.map, List.map_cons, h1, hk, hf]
            · simp only [if_neg hcond, Except.map, hk, hf]


theorem mapWithinBoundsGo_cons_break (now : Int) (mbn : Nat) (viol : Int → Bool) (dst : Bool)
    (d : Int) (s : List OutSlot) (t : SlotsMap) (found : Bool)
    (hbreak : (found && dst) = true) :
    mapWithinBoundsGo now mbn viol dst ((d, s) :: t) found = .ok [] := by
  simp only [mapWithinBoundsGo, if_pos hbreak]

theorem mapWithinBoundsGo_cons_err (now : Int) (mbn : Nat) (viol : Int → Bool) (dst : Bool)
    (d : Int) (s : List OutSlot) (t : SlotsMap) (found : Bool) (e : TRPCError)
    (hbreak : ¬((found && dst) = true))
    (hfil : filterSlotsWithinBounds now mbn viol s found = .error e) :
    mapWithinBoundsGo now mbn viol dst ((d, s) :: t) found = .error e := by
  simp only [mapWithinBoundsGo, if_neg hbreak, hfil]

theorem mapWithinBoundsGo_cons_reduce (now : Int) (mbn : Nat) (viol : Int → Bool) (dst : Bool)
    (d : Int) (s : List OutSlot) (t : SlotsMap) (found : Bool) (k : List OutSlot) (f : Bool)
    (hbreak : ¬((found && dst) = true))
    (hfil : filterSlotsWithinBounds now mbn viol s found = .ok (k, f)) :
    mapWithinBoundsGo now mbn viol dst ((d, s) :: t) found
      = match mapWithinBoundsGo now mbn viol dst t f with
        | .error e => .error e
        | .ok tail => .ok (if 0 < k.length then (d, k) :: tail else tail) := by
  simp only [mapWithinBoundsGo, if_neg hbreak, hfil]

theorem mapWithinBoundsGo_strip_congr (snap : List Int) (now : Int) (mbn : Nat)
    (viol : Int → Bool) (dst : Bool) :
    ∀ (m1 m2 : SlotsMap),
      stripFreshUids snap m1 = stripFreshUids snap m2 →
    ∀ (found : Bool),
      (mapWithinBoundsGo now mbn viol dst m1 found).map (stripFreshUids snap)
        = (mapWithinBoundsGo now mbn viol dst m2 found).map (stripFreshUids snap)
  | [], m2, h, found => by
    cases m2 with
    | nil => rfl
    | cons b t2 => simp [stripFreshUids] at h
  | (d1, s1) :: t1, m2, h, found => by
    cases m2 with
    | nil => simp [stripFreshUids] at h
    | cons b t2 =>
      obtain ⟨d2, s2⟩ := b
      simp only [stripFreshUids, List.map_cons, List.cons.injEq, Prod.mk.injEq] at h
      obtain ⟨⟨hd, hs⟩, ht⟩ := h
      have ht' : stripFreshUids snap t1 = stripFreshUids snap t2 := ht
      by_cases hbreak : (found && dst) = true
      · rw [mapWithinBoundsGo_cons_break now mbn viol dst d1 s1 t1 found hbreak,
          mapWithinBoundsGo_cons_break now mbn viol dst d2 s2 t2 found hbreak]
      · have hfil := filterSlotsWithinBounds_strip_congr snap now mbn viol s1 s2 hs found
        cases hf1 : filterSlotsWithinBounds now mbn viol s1 found with
        | error e1 =>
          cases hf2 : filterSlotsWithinBounds now mbn viol s2 found with
          | error e2 =>
            rw [hf1, hf2] at hfil
            simp only [Except.map] at hfil
            injection hfil with hfil
            rw [mapWithinBoundsGo_cons_err now mbn viol dst d1 s1 t1 found e1 hbreak hf1,
              mapWithinBoundsGo_cons_err now mbn viol dst d2 s2 t2 found e2 hbreak hf2, hfil]
          | ok p2 =>
            rw [hf1, hf2] at hfil
            simp [Except.map] at hfil
        | ok p1 =>
          cases hf2 : filterSlotsWithinBounds now mbn viol s2 found with
          | error e2 =>
            rw [hf1, hf2] at hfil
            simp [Except.map] at hfil
          | ok p2 =>
            rw [hf1, hf2] at hfil
            simp only [Except.map] at hfil
            injection hfil with hfil
            obtain ⟨k1, f1⟩ := p1
            obtain ⟨k2, f2⟩ := p2
            simp only [Prod.mk.injEq] at hfil
            obtain ⟨hk, hf⟩ := hfil
            rw [mapWithinBoundsGo_cons_reduce now mbn viol dst d1 s1 t1 found k1 f1 hbreak hf1,
              mapWithinBoundsGo_cons_reduce now mbn viol dst d2 s2 t2 found k2 f2 hbreak hf2,
              hf, hd]
            have ih := mapWithinBoundsGo_strip_congr snap now mbn viol dst t1 t2 ht' f2
            cases hg1 : mapWithinBoundsGo now mbn viol dst t1 f2 with
            | error e1 =>
              cases hg2 : mapWithinBoundsGo now mbn viol dst t2 f2 with
              | error e2 =>
                rw [hg1, hg2] at ih
                simp only [Except.map] at ih
                injection ih with ih
                rw [ih]
              | ok q2 =>
                rw [hg1, hg2] at ih
                simp [Except.map] at ih
            | ok q1 =>
              cases hg2 : mapWithinBoundsGo now mbn viol dst t2 f2 with
              | error e2 =>
                rw [hg1, hg2] at ih
                simp [Except.map] at ih
              | ok q2 =>
                rw [hg1, hg2] at ih
                simp only [Except.map] at ih
                injection ih with ih
                have hklen : k1.length = k2.length := by
                  rw [← List.length_map _ (stripOutSlot snap), hk, List.length_map]
                have hpayload :
                    stripFreshUids snap (if 0 < k1.length then (d2, k1) :: q1 else q1)
                      = stripFreshUids snap (if 0 < k2.length then (d2, k2) :: q2 else q2) := by
                  by_cases hpos : 0 < k1.length
                  · rw [if_pos hpos, if_pos (hklen ▸ hpos)]
                    simp only [stripFreshUids, List.map_cons]
                    simp only [stripFreshUids] at ih
                    rw [hk, ih]
                  · rw [if_neg hpos, if_neg (by rw [← hklen]; exact hpos), ih]
                exact congrArg Except.ok hpayload

theorem boundsAndNotify_strip_congr (snap : List Int) (now : Int) (mbn : Nat)
    (viol : Int → Bool) (dst : Bool) (notif : Except TRPCError Unit) (single : Bool)
    (M1 M2 : SlotsMap) (hM : stripFreshUids snap M1 = stripFreshUids snap M2) :
    Except.map (stripFreshUids snap)
      (match mapWithinBoundsSlotsToDate now mbn viol dst M1 with
        | .error e => .error e
        | .ok w =>
          match notificationStep notif w single with
          | .error e => .error e
          | .ok _ => .ok w)
      = Except.map (stripFreshUids snap)
        (match mapWithinBoundsSlotsToDate now mbn viol dst M2 with
          | .error e => .error e
          | .ok w =>
            match notificationStep notif w single with
            | .error e => .error e
            | .ok _ => .ok w) := by
  have hW : (mapWithinBoundsSlotsToDate now mbn viol dst M1).map (stripFreshUids snap)
      = (mapWithinBoundsSlotsToDate now mbn viol dst M2).map (stripFreshUids snap) := by
    simp only [mapWithinBoundsSlotsToDate]
    exact mapWithinBoundsGo_strip_congr snap now mbn viol dst M1 M2 hM false
  cases hw1 : mapWithinBoundsSlotsToDate now mbn viol dst M1 with
  | error e1 =>
    cases hw2 : mapWithinBoundsSlotsToDate now mbn viol dst M2 with
    | error e2 =>
      rw [hw1, hw2] at hW
      simp only [Except.map] at hW
      injection hW with hW
      rw [hW]
    | ok w2 =>
      rw [hw1, hw2] at hW
      simp [Except.map] at hW
  | ok w1 =>
    cases hw2 : mapWithinBoundsSlotsToDate now mbn viol dst M2 with
    | error e2 =>
      rw [hw1, hw2] at hW
      simp [Except.map] at hW
    | ok w2 =>
      rw [hw1, hw2] at hW
      simp only [Except.map] at hW
      injection hW with hW
      show Except.map (stripFreshUids snap)
          (match notificationStep notif w1 single with
            | .error e => .error e
            | .ok _ => .ok w1)
        = Except.map (stripFreshUids snap)
          (match notificationStep notif w2 single with
            | .error e => .error e
            | .ok _ => .ok w2)
      rw [notificationStep_ok, notificationStep_ok]
      exact congrArg Except.ok hW

/-- C5, amended: two runs of `_getAvailableSlots` with identical input and
an identical data snapshot agree up to the `bookingUid` of seat entries
synthesized from reserved-seat holds, whose uids are fresh `uuid()` values;
after erasing the `bookingUid` of every slot whose instant is not in the
confirmed-seat snapshot, the two results (error included) are identical for
every environment and every pair of uuid supplies. -/
theorem idempotentUpToFreshUids (env : Env) (g1 g2 : Nat → String) :
    (getAvailableSlots env g1).map (stripFreshUids (snapshotSeatTimes env.currentSeats))
      = (getAvailableSlots env g2).map (stripFreshUids (snapshotSeatTimes env.currentSeats)) := by
  obtain ⟨now, tz, stp, etp, mbn, el, etid, seats, osf, dst, viol, q, f, avail, gso, bk,
    unexp, del, cs, notif, single⟩ := env
  simp only [getAvailableSlots]
  cases stp with
  | none => cases etp <;> rfl
  | some startInput =>
    cases etp with
    | none => rfl
    | some endInput =>
      cases hres : getReservedSlotsAndCleanupExpired bk unexp del with
      | error e => rfl
      | ok reserved =>
        obtain ⟨hA, hB, hC⟩ := seatsBlock_uuid_congr g1 g2 etid el seats cs reserved
          (gso ((computeWithFallback now mbn q f avail
            (getStartTime now mbn startInput) endInput).2))
        apply boundsAndNotify_strip_congr
        rw [hB]
        apply mapSlotsToDate_strip_congr _ _ _ _ _ hA
        intro t htc
        exact hC t (by simpa using htc)

/-- C5 counterexample: a seat event with one reserved-seat hold from
another session; two runs whose `uuid()` calls return different values
produce different slot maps (the synthesized seat entry's `bookingUid`
differs), refuting bit-for-bit idempotence of the returned map. -/
theorem idempotenceCounterexample :
    (getAvailableSlots envIdem uuidSupplyA).toOption
      ≠ (getAvailableSlots envIdem uuidSupplyB).toOption := by
  decide
